import Mathlib

/-!
# Verification of the sponsor-aggregation script

A shallow embedding of `.github/workflows/update_sponsors.py` — the script
that merges GitHub Sponsors and Liberapay patrons into README marker
regions — together with theorems settling the specification claims.

Conventions of the embedding:

* Python `decimal.Decimal` values are modelled by `Dec`: either a finite
  value (an exact rational; the coefficient/exponent split of a decimal
  does not affect any operation used by the script, which are all
  value-based), a signed infinity, or a NaN.  The default decimal context
  (precision 28, `ROUND_HALF_EVEN`, `InvalidOperation` trapped) is
  modelled by `ctxRound`, rounding to 28 significant digits.  Operations
  that would signal `InvalidOperation` (comparison with a NaN, quantize
  of an infinity) return `Except.error`.
* Fallible Python code returns `Except`; functions that swallow their
  exceptions (`parse_decimal`, `parse_started_at`) return `Option`.
* `datetime` values are modelled by their instant: microseconds relative
  to the epoch of the civil-day count, after normalisation to UTC.  A
  naive parsed datetime is interpreted with local time equal to UTC (the
  CI deployment target).  `datetime.fromisoformat` is modelled on the
  common dashed calendar-date subset of the formats it accepts
  (`YYYY-MM-DD`, any one-character separator, `HH:MM[:SS[.f{1,6}]]`,
  optional `±HH:MM[:SS]` offset), with full range validation.
* Strings are processed as `List Char`; Python `str.strip`, `str.lower`
  and `html.escape` are modelled character-wise over code points
  (ASCII-faithful, which covers every string the claims mention).
-/

namespace UpdateSponsors

/-! # Definitions -/

/-! ## Decimal digit length, used for the 28-significant-digit context -/

/-- Number of decimal digits of `n`, fuel-based so that it reduces in the
kernel (`digLen 0 = 0`; the zero case is never consulted). -/
def digLenAux : ℕ → ℕ → ℕ
  | 0, _ => 0
  | f + 1, n => if n < 10 then 1 else digLenAux f (n / 10) + 1

def digLen (n : ℕ) : ℕ := digLenAux n n

/-! ## Integer powers of ten over ℚ -/

def pow10 (z : ℤ) : ℚ := (10 : ℚ) ^ z

/-! ## Rounding primitives -/

/-- Round to the nearest integer, ties to even (`ROUND_HALF_EVEN`). -/
def rhe (q : ℚ) : ℤ :=
  if q - ⌊q⌋ < 1 / 2 then ⌊q⌋
  else if 1 / 2 < q - ⌊q⌋ then ⌊q⌋ + 1
  else if ⌊q⌋ % 2 = 0 then ⌊q⌋ else ⌊q⌋ + 1

/-- Round to the nearest integer, ties away from zero (`ROUND_HALF_UP`). -/
def rhu (q : ℚ) : ℤ := if 0 ≤ q then ⌊q + 1 / 2⌋ else -⌊1 / 2 - q⌋

/-- The adjusted exponent of a nonzero rational: the unique `e` with
`10 ^ e ≤ |q| < 10 ^ (e + 1)`. -/
def adjExp (q : ℚ) : ℤ :=
  if pow10 ((digLen q.num.natAbs : ℤ) - (digLen q.den : ℤ)) ≤ |q| then
    (digLen q.num.natAbs : ℤ) - (digLen q.den : ℤ)
  else
    (digLen q.num.natAbs : ℤ) - (digLen q.den : ℤ) - 1

/-- Round a rational to 28 significant decimal digits, half-even: the
rounding applied by the default `decimal` context to arithmetic results. -/
def ctxRound (q : ℚ) : ℚ :=
  if q = 0 then 0
  else (rhe (q * pow10 (27 - adjExp q)) : ℚ) * pow10 (adjExp q - 27)

/-! ## The `Dec` model of `decimal.Decimal` -/

/-- A Python `Decimal` value, up to numerical equality: a finite value (an
exact rational), a signed infinity, or a NaN.  Both quiet and signaling NaN
strings are mapped to `nan` (no claim distinguishes them). -/
inductive Dec where
  | finite (q : ℚ)
  | inf (neg : Bool)
  | nan
deriving DecidableEq

/-- `x <= y` on decimals.  A NaN operand signals `InvalidOperation`, which
the default context turns into an exception (`Except.error`). -/
def decLe : Dec → Dec → Except Unit Bool
  | .nan, _ => .error ()
  | _, .nan => .error ()
  | .finite a, .finite b => .ok (decide (a ≤ b))
  | .inf n, .finite _ => .ok n
  | .finite _, .inf n => .ok (!n)
  | .inf n1, .inf n2 => .ok (n1 || !n2)

/-- `x < y` on decimals, with the same NaN behaviour as `decLe`. -/
def decLt : Dec → Dec → Except Unit Bool
  | .nan, _ => .error ()
  | _, .nan => .error ()
  | .finite a, .finite b => .ok (decide (a < b))
  | .inf n, .finite _ => .ok n
  | .finite _, .inf n => .ok (!n)
  | .inf n1, .inf n2 => .ok (n1 && !n2)

/-- Context multiplication.  Finite results are rounded to 28 significant
digits; a quiet NaN propagates.  (`inf * 0` would trap in Python; it is
modelled as `nan` and is unreachable here since one factor is always a
nonzero literal constant.) -/
def Dec.mul : Dec → Dec → Dec
  | .nan, _ => .nan
  | _, .nan => .nan
  | .finite a, .finite b => .finite (ctxRound (a * b))
  | .inf n, .finite b => if b = 0 then .nan else .inf (xor n (decide (b < 0)))
  | .finite a, .inf n => if a = 0 then .nan else .inf (xor n (decide (a < 0)))
  | .inf n1, .inf n2 => .inf (xor n1 n2)

/-- Context division.  Finite results are correctly rounded to 28
significant digits; a quiet NaN propagates.  (Division by zero would trap
in Python; it is modelled as `nan` and is unreachable here since the
script only divides by the literal constants 12 and 100.) -/
def Dec.div : Dec → Dec → Dec
  | .nan, _ => .nan
  | _, .nan => .nan
  | .finite a, .finite b => if b = 0 then .nan else .finite (ctxRound (a / b))
  | .inf n, .finite b => .inf (xor n (decide (b < 0)))
  | .finite _, .inf _ => .finite 0
  | .inf _, .inf _ => .nan

/-- `x.quantize(Decimal("0.01"), rounding=ROUND_HALF_UP)`: round the value
to two fractional digits, ties away from zero.  Raises `InvalidOperation`
(modelled as `Except.error`) when the operand is an infinity or when the
result would need more than 28 digits; a quiet NaN propagates. -/
def Dec.quantize2HU : Dec → Except Unit Dec
  | .nan => .ok .nan
  | .inf _ => .error ()
  | .finite q =>
      if (rhu (q * 100)).natAbs < 10 ^ 28 then
        .ok (.finite ((rhu (q * 100) : ℚ) / 100))
      else
        .error ()

instance exceptDecEq {ε α : Type} [DecidableEq ε] [DecidableEq α] :
    DecidableEq (Except ε α) := fun a b =>
  match a, b with
  | .error e1, .error e2 =>
      if h : e1 = e2 then .isTrue (by rw [h]) else .isFalse (by simp [h])
  | .error _, .ok _ => .isFalse (by simp)
  | .ok _, .error _ => .isFalse (by simp)
  | .ok v1, .ok v2 =>
      if h : v1 = v2 then .isTrue (by rw [h]) else .isFalse (by simp [h])

/-! ## String helpers (`str.strip`, `str.lower`, code points) -/

def isWsChar (c : Char) : Bool :=
  c = ' ' || c = '\t' || c = '\n' || c = '\x0d' || c = '\x0b' || c = '\x0c'

/-- Python `str.strip()` (ASCII whitespace). -/
def trimChars (cs : List Char) : List Char :=
  ((cs.dropWhile isWsChar).reverse.dropWhile isWsChar).reverse

def strTrim (s : String) : String := String.mk (trimChars s.data)

/-- Python `str.lower()` (ASCII-faithful). -/
def strLower (s : String) : String := String.mk (s.data.map Char.toLower)

def digitVal (c : Char) : ℕ := c.toNat - 48

def digitsVal (ds : List Char) : ℕ := ds.foldl (fun acc c => acc * 10 + digitVal c) 0

def concatMap (f : α → List β) : List α → List β
  | [] => []
  | x :: xs => f x ++ concatMap f xs

/-! ## `parse_decimal` (lines 126-135): `Decimal(text)` on a stripped string -/

/-- Underscores in a numeric string must sit between two digits
(`1_000` is valid, `_1`, `1_`, `1__0`, `1_.0` are not). -/
def underscoreAux : Char → List Char → Bool
  | _, [] => true
  | _, [c] => !(c = '_')
  | prev, c :: d :: rest2 =>
      if c = '_' then prev.isDigit && d.isDigit && underscoreAux d rest2
      else underscoreAux c (d :: rest2)

def underscoresOk : List Char → Bool
  | [] => true
  | c :: rest => if c = '_' then false else underscoreAux c rest

/-- Longest digit prefix of a character list. -/
def takeDigits : List Char → List Char × List Char
  | [] => ([], [])
  | c :: cs =>
      if c.isDigit then
        let r := takeDigits cs
        (c :: r.1, r.2)
      else ([], c :: cs)

/-- Split at the first exponent marker `e`/`E`. -/
def splitAtExp : List Char → List Char × Option (List Char)
  | [] => ([], none)
  | c :: cs =>
      if c = 'e' || c = 'E' then ([], some cs)
      else
        let r := splitAtExp cs
        (c :: r.1, r.2)

def parseSign : List Char → Bool × List Char
  | [] => (false, [])
  | c :: cs =>
      if c = '+' then (false, cs)
      else if c = '-' then (true, cs)
      else (false, c :: cs)

/-- Special values of the decimal grammar, case-insensitive:
`Inf`/`Infinity`, and `NaN`/`sNaN` with an optional digit payload. -/
def parseSpecial (neg : Bool) (cs : List Char) : Option Dec :=
  let l := cs.map Char.toLower
  if l = ("inf").data || l = ("infinity").data then some (.inf neg)
  else if l.take 4 = ("snan").data && (l.drop 4).all Char.isDigit then some .nan
  else if l.take 3 = ("nan").data && (l.drop 3).all Char.isDigit then some .nan
  else none

/-- The digit part of a numeric string: `digits [. [digits]]` or
`. digits`; yields the coefficient digits' value and the number of
fractional digits. -/
def parseUnsignedMantissa (cs : List Char) : Option (ℕ × ℕ) :=
  match takeDigits cs with
  | (ids, []) => if ids = [] then none else some (digitsVal ids, 0)
  | (ids, '.' :: r2) =>
      match takeDigits r2 with
      | (fs, []) =>
          if ids = [] ∧ fs = [] then none else some (digitsVal (ids ++ fs), fs.length)
      | (_, _ :: _) => none
  | _ => none

/-- The exponent part after `e`/`E`: an optional sign and a nonempty run
of digits; an absent exponent part means exponent 0. -/
def parseExpPart : Option (List Char) → Option ℤ
  | none => some 0
  | some cs =>
      match parseSign cs with
      | (en, cs2) =>
        match takeDigits cs2 with
        | (eds, []) =>
            if eds = [] then none
            else some (if en then -(digitsVal eds : ℤ) else (digitsVal eds : ℤ))
        | (_, _ :: _) => none

/-- `Decimal(text)` for nonempty stripped `text`: the numeric-string
grammar of the `decimal` module, evaluated exactly (string construction
never rounds). -/
def parseDecCore (cs : List Char) : Option Dec :=
  if !(underscoresOk cs) then none
  else
    match parseSign (cs.filter (fun c => c ≠ '_')) with
    | (neg, body) =>
      match parseSpecial neg body with
      | some d => some d
      | none =>
          match splitAtExp body with
          | (mant, expPart) =>
            match parseUnsignedMantissa mant, parseExpPart expPart with
            | some cf, some e =>
                some (.finite ((if neg then -1 else 1) * (cf.1 : ℚ) * pow10 (e - (cf.2 : ℤ))))
            | _, _ => none

/-- `parse_decimal` (lines 126-135): absent input or a blank string yields
`none`; otherwise `Decimal(text)` on the stripped text, with the
`InvalidOperation` of a malformed string caught and turned into `none`.
(The script feeds it strings or JSON scalars; a non-string scalar is
passed here already rendered by `str`.) -/
def parseDecimal : Option String → Option Dec
  | none => none
  | some s =>
      let t := trimChars s.data
      if t = [] then none else parseDecCore t

/-! ## `parse_started_at` (lines 138-147): `datetime.fromisoformat` -/

def digit2? : List Char → Option (ℕ × List Char)
  | a :: b :: rest =>
      if a.isDigit && b.isDigit then some (digitVal a * 10 + digitVal b, rest) else none
  | _ => none

def digit4? : List Char → Option (ℕ × List Char)
  | a :: b :: c :: d :: rest =>
      if a.isDigit && b.isDigit && c.isDigit && d.isDigit then
        some (digitVal a * 1000 + digitVal b * 100 + digitVal c * 10 + digitVal d, rest)
      else none
  | _ => none

def isLeapYear (y : ℕ) : Bool := y % 4 = 0 && (y % 100 ≠ 0 || y % 400 = 0)

def daysInMonth (y m : ℕ) : ℕ :=
  if m = 2 then (if isLeapYear y then 29 else 28)
  else if m = 4 || m = 6 || m = 9 || m = 11 then 30
  else 31

/-- Civil date to day count (days relative to 1970-01-01, Gregorian),
for validated dates with `y ≥ 1`. -/
def daysFromCivil (y m d : ℕ) : ℤ :=
  let yAdj := y - (if m ≤ 2 then 1 else 0)
  let era := yAdj / 400
  let yoe := yAdj % 400
  let mp := (m + 9) % 12
  let doy := (153 * mp + 2) / 5 + (d - 1)
  let doe := yoe * 365 + yoe / 4 - yoe / 100 + doy
  (↑(era * 146097 + doe) : ℤ) - 719468

/-- Fractional seconds after the decimal separator: one to six digits,
scaled to microseconds. -/
def parseFracMicros (cs : List Char) : Option (ℕ × List Char) :=
  let r := takeDigits cs
  if 1 ≤ r.1.length && r.1.length ≤ 6 then
    some (digitsVal r.1 * 10 ^ (6 - r.1.length), r.2)
  else none

/-- UTC offset magnitude `HH:MM[:SS]`, consuming the whole rest, in
microseconds. -/
def parseOffMag (cs : List Char) : Option ℤ :=
  match digit2? cs with
  | none => none
  | some (oh, r1) =>
    if oh ≥ 24 then none
    else
      match r1 with
      | ':' :: r2 =>
        match digit2? r2 with
        | none => none
        | some (om, r3) =>
          if om ≥ 60 then none
          else
            match r3 with
            | [] => some ((oh * 3600 + om * 60) * 1000000 : ℕ)
            | ':' :: r4 =>
              match digit2? r4 with
              | some (os, []) =>
                  if os ≥ 60 then none
                  else some ((oh * 3600 + om * 60 + os) * 1000000 : ℕ)
              | _ => none
            | _ => none
      | _ => none

def parseOffsetMicros : List Char → Option ℤ
  | '+' :: r => parseOffMag r
  | '-' :: r => (parseOffMag r).map Neg.neg
  | _ => none

/-- Time of day `HH:MM[:SS[.f]]` with optional trailing offset, consuming
the whole list: microseconds within the day, and the offset when aware. -/
def parseTimeMicros (cs : List Char) : Option (ℕ × Option ℤ) :=
  match digit2? cs with
  | none => none
  | some (hh, r1) =>
    if hh ≥ 24 then none
    else
      match r1 with
      | [] => some (hh * 3600000000, none)
      | ':' :: r2 =>
        match digit2? r2 with
        | none => none
        | some (mm, r3) =>
          if mm ≥ 60 then none
          else
            match r3 with
            | [] => some (hh * 3600000000 + mm * 60000000, none)
            | ':' :: r4 =>
              match digit2? r4 with
              | none => none
              | some (ss, r5) =>
                if ss ≥ 60 then none
                else
                  match r5 with
                  | [] => some (hh * 3600000000 + mm * 60000000 + ss * 1000000, none)
                  | '.' :: r6 =>
                    match parseFracMicros r6 with
                    | none => none
                    | some (us, r7) =>
                      match r7 with
                      | [] => some (hh * 3600000000 + mm * 60000000 + ss * 1000000 + us, none)
                      | _ =>
                        match parseOffsetMicros r7 with
                        | none => none
                        | some off =>
                            some (hh * 3600000000 + mm * 60000000 + ss * 1000000 + us, some off)
                  | ',' :: r6 =>
                    match parseFracMicros r6 with
                    | none => none
                    | some (us, r7) =>
                      match r7 with
                      | [] => some (hh * 3600000000 + mm * 60000000 + ss * 1000000 + us, none)
                      | _ =>
                        match parseOffsetMicros r7 with
                        | none => none
                        | some off =>
                            some (hh * 3600000000 + mm * 60000000 + ss * 1000000 + us, some off)
                  | _ =>
                    match parseOffsetMicros r5 with
                    | none => none
                    | some off =>
                        some (hh * 3600000000 + mm * 60000000 + ss * 1000000, some off)
            | _ =>
              match parseOffsetMicros r3 with
              | none => none
              | some off => some (hh * 3600000000 + mm * 60000000, some off)
      | _ =>
        match parseOffsetMicros r1 with
        | none => none
        | some off => some (hh * 3600000000, some off)

/-- `datetime.fromisoformat` on the dashed calendar-date subset, returning
the UTC instant in microseconds (a naive datetime is taken at local time
equal to UTC). -/
def parseIsoChars (cs : List Char) : Option ℤ :=
  match digit4? cs with
  | none => none
  | some (y, r1) =>
    match r1 with
    | '-' :: r2 =>
      match digit2? r2 with
      | none => none
      | some (mo, r3) =>
        match r3 with
        | '-' :: r4 =>
          match digit2? r4 with
          | none => none
          | some (d, r5) =>
            if 1 ≤ y && 1 ≤ mo && mo ≤ 12 && 1 ≤ d && d ≤ daysInMonth y mo then
              match r5 with
              | [] => some (daysFromCivil y mo d * 86400000000)
              | _ :: r6 =>
                match parseTimeMicros r6 with
                | none => none
                | some (tms, off) =>
                    some (daysFromCivil y mo d * 86400000000 + (tms : ℤ) - off.getD 0)
            else none
        | _ => none
    | _ => none

def replaceAllZ : List Char → List Char
  | [] => []
  | c :: cs => (if c = 'Z' then ("+00:00").data else [c]) ++ replaceAllZ cs

/-- `parse_started_at` (lines 138-147): strip; empty yields `none`;
`date_only` anchors a calendar date at midnight UTC by appending
`T00:00:00+00:00`; otherwise every `Z` is first replaced by `+00:00`;
the `ValueError` of a malformed string is caught and turned into
`none`. -/
def parseStartedAt (value : String) (dateOnly : Bool) : Option ℤ :=
  let text := trimChars value.data
  if text = [] then none
  else if dateOnly then parseIsoChars (text ++ ("T00:00:00+00:00").data)
  else parseIsoChars (replaceAllZ text)

/-! ## Thresholds and the `Sponsor` record -/

structure Thresholds where
  githubRegularMonthlyMinimum : Dec
  githubHighlightedMonthlyMinimum : Dec
  liberapayRegularWeeklyMinimum : Dec
  liberapayHighlightedWeeklyMinimum : Dec
deriving DecidableEq

structure Sponsor where
  platform : String
  key : String
  name : String
  profileUrl : String
  avatarUrl : String
  startedAt : ℤ
  tier : String
  monthlyAmount : Dec
  currency : String
deriving DecidableEq

/-! ## Tier classification (`monthly_tier`, `liberapay_tier`) -/

/-- `monthly_tier` (lines 172-182).  Mirrors the Python control flow:
`monthly_amount >= highlighted_minimum` first, then the chained comparison
`regular_minimum <= monthly_amount < highlighted_minimum` with Python's
short-circuit evaluation. -/
def monthlyTier (monthlyAmount regularMinimum highlightedMinimum : Dec) :
    Except Unit (Option String) :=
  match decLe highlightedMinimum monthlyAmount with
  | .error e => .error e
  | .ok true => .ok (some ("highlighted"))
  | .ok false =>
    match decLe regularMinimum monthlyAmount with
    | .error e => .error e
    | .ok false => .ok none
    | .ok true =>
      match decLt monthlyAmount highlightedMinimum with
      | .error e => .error e
      | .ok true => .ok (some ("regular"))
      | .ok false => .ok none

/-- `liberapay_tier` (lines 185-190): classification by the weekly amount
against the weekly minimums.  (The `annual_amount` parameter of the Python
function is unused in its body and omitted.) -/
def liberapayTier (weeklyAmount : Dec) (t : Thresholds) : Except Unit (Option String) :=
  match decLe t.liberapayHighlightedWeeklyMinimum weeklyAmount with
  | .error e => .error e
  | .ok true => .ok (some ("highlighted"))
  | .ok false =>
    match decLe t.liberapayRegularWeeklyMinimum weeklyAmount with
    | .error e => .error e
    | .ok true => .ok (some ("regular"))
    | .ok false => .ok none

/-! ## The Liberapay monthly amount (lines 215 and 219) -/

/-- The monthly amount the Liberapay adapter stores for a row with weekly
amount `w`: `annual = w * WEEKS_PER_YEAR` and then
`(annual / MONTHS_PER_YEAR).quantize(Decimal("0.01"), ROUND_HALF_UP)`,
each arithmetic step under the default 28-digit decimal context. -/
def liberapayMonthlyAmount (w : Dec) : Except Unit Dec :=
  Dec.quantize2HU (Dec.div (Dec.mul w (.finite 52)) (.finite 12))

/-- The specification's described result: `round_half_up(q, 2 decimals)`
computed in exact rational arithmetic with no intermediate rounding. -/
def roundHalfUpTo2 (q : ℚ) : ℚ := (rhu (q * 100) : ℚ) / 100

/-! ## The GitHub adapter, per sponsorship node (lines 280-326) -/

/-- Python truthiness of an optional JSON boolean field. -/
def truthy : Option Bool → Bool
  | some true => true
  | _ => false

/-- One node of `sponsorshipsAsMaintainer.nodes`.  Scalar tier prices are
carried as the string `str` renders them (absent and `null` fields are
`none`). -/
structure GNode where
  isActive : Option Bool
  isOneTimePayment : Option Bool
  privacyLevel : Option String
  entityLogin : Option String
  entityName : Option String
  entityUrl : Option String
  createdAt : Option String
  tierCents : Option String
  tierDollars : Option String
deriving DecidableEq

def hexUpper (n : ℕ) : Char := if n < 10 then Char.ofNat (48 + n) else Char.ofNat (55 + n)

def utf8Bytes (n : ℕ) : List ℕ :=
  if n < 128 then [n]
  else if n < 2048 then [192 + n / 64, 128 + n % 64]
  else if n < 65536 then [224 + n / 4096, 128 + n / 64 % 64, 128 + n % 64]
  else [240 + n / 262144, 128 + n / 4096 % 64, 128 + n / 64 % 64, 128 + n % 64]

/-- `urllib.parse.quote` with the default `safe='/'`. -/
def urlQuote (s : String) : String :=
  String.mk (concatMap (fun c =>
    if c.isAlphanum || c = '_' || c = '.' || c = '-' || c = '~' || c = '/' then [c]
    else concatMap (fun b => ['%', hexUpper (b / 16), hexUpper (b % 16)]) (utf8Bytes c.toNat))
    s.data)

/-- The per-node body of the `fetch_github_sponsors` accumulation loop
(lines 281-326): `ok none` models `continue` (the node contributes no
sponsor), `ok (some s)` models `sponsors.append(s)`, and `error` models an
exception escaping the loop. -/
def githubNodeToSponsor (node : GNode) (t : Thresholds) : Except Unit (Option Sponsor) :=
  if !(truthy node.isActive) || truthy node.isOneTimePayment then .ok none
  else if node.privacyLevel ≠ some ("PUBLIC") then .ok none
  else
    let login := strTrim (node.entityLogin.getD (""))
    let url := strTrim (node.entityUrl.getD (""))
    if login = ("") || url = ("") then .ok none
    else
      match parseStartedAt (node.createdAt.getD ("")) false with
      | none => .ok none
      | some startedAt =>
        let monthly? : Option Dec :=
          match parseDecimal node.tierCents with
          | none => parseDecimal node.tierDollars
          | some cents => some (Dec.div cents (.finite 100))
        match monthly? with
        | none => .ok none
        | some monthly =>
          match monthlyTier monthly t.githubRegularMonthlyMinimum
              t.githubHighlightedMonthlyMinimum with
          | .error e => .error e
          | .ok none => .ok none
          | .ok (some tier) =>
            let rawName := match node.entityName with
              | none => login
              | some n => if n = ("") then login else n
            let stripped := strTrim rawName
            let displayName := if stripped = ("") then login else stripped
            .ok (some
              { platform := ("github")
                key := strLower login
                name := displayName
                profileUrl := url
                avatarUrl := ("https://github.com/") ++ urlQuote login ++ (".png")
                startedAt := startedAt
                tier := tier
                monthlyAmount := monthly
                currency := ("USD") })

/-! ## Merge, dedupe and sort (`sort_and_dedupe`, lines 337-345; merge in
`main`, lines 371-373) -/

def sponsorKey (s : Sponsor) : String × String := (s.platform, s.key)

/-- Assignment `unique[(platform, key)] = sponsor` on an insertion-ordered
map (a Python dict keeps the original position on reassignment). -/
def upsert : List ((String × String) × Sponsor) → Sponsor → List ((String × String) × Sponsor)
  | [], s => [(sponsorKey s, s)]
  | (k, v) :: rest, s =>
      if k = sponsorKey s then (k, s) :: rest else (k, v) :: upsert rest s

def dedupeMap (xs : List Sponsor) : List ((String × String) × Sponsor) := xs.foldl upsert []

def mapValues (m : List ((String × String) × Sponsor)) : List Sponsor := m.map (·.2)

def lookupKey (m : List ((String × String) × Sponsor)) (k : String × String) : Option Sponsor :=
  (m.find? (fun p => decide (p.1 = k))).map (·.2)

/-- The last record of `xs` whose identity is `k` — the record a
last-write-wins map keyed by `(platform, key)` retains. -/
def lastWithKey (xs : List Sponsor) (k : String × String) : Option Sponsor :=
  xs.reverse.find? (fun s => decide (sponsorKey s = k))

/-- Code points of a string (Python compares strings pointwise by code
point). -/
def cp (s : String) : List ℕ := s.data.map Char.toNat

/-- Code points of `str.casefold()` (ASCII-faithful lowering). -/
def cpFold (s : String) : List ℕ := s.data.map (fun c => (Char.toLower c).toNat)

/-- The sort key of lines 342-345: `(started_at, name.casefold(),
platform, key)`. -/
def sortKey (s : Sponsor) : ℤ × List ℕ × List ℕ × List ℕ :=
  (s.startedAt, cpFold s.name, cp s.platform, cp s.key)

/-- Strict lexicographic order on code-point lists. -/
def listLtB : List ℕ → List ℕ → Bool
  | [], [] => false
  | [], _ :: _ => true
  | _ :: _, [] => false
  | a :: xs, b :: ys => if a < b then true else if b < a then false else listLtB xs ys

/-- Strict lexicographic order on sort keys. -/
def sortLtB (x y : ℤ × List ℕ × List ℕ × List ℕ) : Bool :=
  if x.1 < y.1 then true
  else if y.1 < x.1 then false
  else if listLtB x.2.1 y.2.1 then true
  else if listLtB y.2.1 x.2.1 then false
  else if listLtB x.2.2.1 y.2.2.1 then true
  else if listLtB y.2.2.1 x.2.2.1 then false
  else listLtB x.2.2.2 y.2.2.2

def sortLeB (x y : ℤ × List ℕ × List ℕ × List ℕ) : Bool := !(sortLtB y x)

def sponsorLe (a b : Sponsor) : Prop := sortLeB (sortKey a) (sortKey b) = true

instance sponsorLeDec : DecidableRel sponsorLe := fun a b =>
  instDecidableEqBool (sortLeB (sortKey a) (sortKey b)) true

/-- `sort_and_dedupe` (lines 337-345): build the last-write-wins map keyed
by `(platform, key)`, then sort its values by `sortKey`.  (Python's
`sorted` is a stable comparison sort; because the deduplicated values have
pairwise distinct keys the result of any comparison sort coincides.) -/
def sortAndDedupe (xs : List Sponsor) : List Sponsor :=
  List.insertionSort sponsorLe (mapValues (dedupeMap xs))

/-- The merge in `main` (lines 371-373): Liberapay sponsors are prepended
before the GitHub sponsors. -/
def mergeSponsors (liberapaySponsors githubSponsors : List Sponsor) : List Sponsor :=
  liberapaySponsors ++ githubSponsors

/-! ## Renderer (`render_sponsor`, lines 348-353; `html.escape`) -/

/-- `html.escape(s, quote=True)` (the default), character-wise. -/
def escapeChar (c : Char) : List Char :=
  if c = '&' then ("&amp;").data
  else if c = '<' then ("&lt;").data
  else if c = '>' then ("&gt;").data
  else if c = '"' then ("&quot;").data
  else if c = '\'' then ("&#x27;").data
  else [c]

def htmlEscape (s : String) : String := String.mk (concatMap escapeChar s.data)

def regularWidth : String := "80px"

def highlightedWidth : String := "120px"

/-- `render_sponsor` (lines 348-353). -/
def renderSponsor (s : Sponsor) (width : String) : String :=
  ("<a href=\"") ++ htmlEscape s.profileUrl ++ ("\">") ++
  ("<img src=\"") ++ htmlEscape s.avatarUrl ++ ("\" ") ++
  ("width=\"") ++ width ++ ("\" alt=\"") ++ htmlEscape s.name ++ ("\" /></a>&nbsp;&nbsp;")

/-! ## Marker replacement (`replace_marker`, lines 356-361) -/

inductive RErr where
  | markerNotOnce (marker : String)
  | templateError (msg : String)
deriving DecidableEq

/-- A compiled `re.sub` replacement template chunk: a literal character or
a reference to group 0 (the whole match); the pattern has no other
groups. -/
inductive TChunk where
  | lit (c : Char)
  | group0
deriving DecidableEq

/-- Compilation of a replacement template by `sre_parse.parse_template`,
restricted to the escapes that can arise here: `\\`, the ASCII
letter escapes, octal escapes, `\g<...>`, numeric group references (the
pattern has zero groups, so any nonzero reference is an error), unknown
letter escapes (an error), and unknown non-letter escapes (kept
verbatim).  Fuel-based for kernel reduction; `fuel = length + 1`
suffices. -/
def parseTemplateAux : ℕ → List Char → Except RErr (List TChunk)
  | 0, _ => .error (.templateError ("out of fuel"))
  | _ + 1, [] => .ok []
  | f + 1, '\\' :: rest =>
    match rest with
    | [] => .error (.templateError ("bad escape (end of pattern)"))
    | c :: rest2 =>
      if c = '\\' then (parseTemplateAux f rest2).map (fun t => .lit '\\' :: t)
      else if c = 'n' then (parseTemplateAux f rest2).map (fun t => .lit '\n' :: t)
      else if c = 't' then (parseTemplateAux f rest2).map (fun t => .lit '\t' :: t)
      else if c = 'r' then (parseTemplateAux f rest2).map (fun t => .lit '\x0d' :: t)
      else if c = 'v' then (parseTemplateAux f rest2).map (fun t => .lit '\x0b' :: t)
      else if c = 'f' then (parseTemplateAux f rest2).map (fun t => .lit '\x0c' :: t)
      else if c = 'a' then (parseTemplateAux f rest2).map (fun t => .lit '\x07' :: t)
      else if c = 'b' then (parseTemplateAux f rest2).map (fun t => .lit '\x08' :: t)
      else if c = 'g' then
        match rest2 with
        | '<' :: r2 =>
          let nm := r2.takeWhile (fun d => d ≠ '>')
          match r2.drop nm.length with
          | '>' :: r4 =>
            if nm = [] then .error (.templateError ("missing group name"))
            else if nm.all Char.isDigit then
              if digitsVal nm = 0 then (parseTemplateAux f r4).map (fun t => .group0 :: t)
              else .error (.templateError ("invalid group reference"))
            else .error (.templateError ("bad character in group name"))
          | _ => .error (.templateError ("missing >, unterminated name"))
        | _ => .error (.templateError ("missing <"))
      else if c = '0' then
        -- octal escape: up to two further octal digits
        match rest2 with
        | d1 :: d2 :: r3 =>
          if '0' ≤ d1 && d1 ≤ '7' then
            if '0' ≤ d2 && d2 ≤ '7' then
              (parseTemplateAux f r3).map
                (fun t => .lit (Char.ofNat (digitVal d1 * 8 + digitVal d2)) :: t)
            else (parseTemplateAux f (d2 :: r3)).map (fun t => .lit (Char.ofNat (digitVal d1)) :: t)
          else (parseTemplateAux f rest2).map (fun t => .lit (Char.ofNat 0) :: t)
        | [d1] =>
          if '0' ≤ d1 && d1 ≤ '7' then
            (parseTemplateAux f []).map (fun t => .lit (Char.ofNat (digitVal d1)) :: t)
          else (parseTemplateAux f rest2).map (fun t => .lit (Char.ofNat 0) :: t)
        | [] => (parseTemplateAux f []).map (fun t => .lit (Char.ofNat 0) :: t)
      else if c.isDigit then .error (.templateError ("invalid group reference"))
      else if c.isAlpha then .error (.templateError ("bad escape"))
      else (parseTemplateAux f rest2).map (fun t => .lit '\\' :: .lit c :: t)
  | f + 1, c :: rest => (parseTemplateAux f rest).map (fun t => .lit c :: t)

def expandChunks (tmpl : List TChunk) (whole : List Char) : List Char :=
  concatMap (fun ch => match ch with | .lit c => [c] | .group0 => whole) tmpl

/-- First index of `pat` in `text` (`None` when absent). -/
def subIdx (pat : List Char) : List Char → Option ℕ
  | [] => if pat = [] then some 0 else none
  | c :: rest =>
      if pat.isPrefixOf (c :: rest) then some 0
      else (subIdx pat rest).map (· + 1)

/-- The leftmost-shortest match of the pattern `S .*? S` (with `re.DOTALL`)
as a half-open index span: the first occurrence of `S`, then the next
occurrence starting at or after its end. -/
def findPair (S text : List Char) : Option (ℕ × ℕ) :=
  match subIdx S text with
  | none => none
  | some i =>
    match subIdx S (text.drop (i + S.length)) with
    | none => none
    | some k => some (i, i + S.length + k + S.length)

def sentinel (marker : String) : String := ("<!-- ") ++ marker ++ (" -->")

/-- `replace_marker` (lines 356-361): substitute the replacement template
`sentinel + replacement + sentinel` for the first (leftmost-shortest)
match of `sentinel .*? sentinel` (`subn` with `count=1`), then fail with
the `RuntimeError` naming the marker when the number of substitutions
made differs from 1 — which, with `count=1`, only happens when it is 0.
The template is compiled by `re` before use (a template error escapes as
`re.error`, modelled as `templateError`). -/
def replaceMarker (content marker replacement : String) : Except RErr String :=
  let S := (sentinel marker).data
  let tmpl := S ++ replacement.data ++ S
  match parseTemplateAux (tmpl.length + 1) tmpl with
  | .error e => .error e
  | .ok chunks =>
    match findPair S content.data with
    | none => .error (.markerNotOnce marker)
    | some (i, j) =>
      .ok (String.mk (content.data.take i ++
        expandChunks chunks ((content.data.drop i).take (j - i)) ++
        content.data.drop j))

/-- The character of a decimal digit value. -/
def digitChar (d : ℕ) : Char := Char.ofNat (48 + d)

/-- Rendering of a finite plain decimal string from digit-value lists:
`[-]ids.fds`. -/
def renderPlain (neg : Bool) (ids fds : List ℕ) : List Char :=
  (if neg then ['-'] else []) ++ ids.map digitChar ++ '.' :: fds.map digitChar

/-- The value of a digit-value list read as a base-10 numeral. -/
def digitsNatVal (ds : List ℕ) : ℕ := ds.foldl (fun a d => a * 10 + d) 0

/-- The exclusiveness rank of a tier: excluded < regular < highlighted. -/
def tierRank : Option String → ℕ
  | none => 0
  | some s => if s = ("highlighted") then 2 else 1

/-! ## Concrete fixtures used by the claim-level evaluations -/

/-- Thresholds with a low Liberapay regular minimum – any nonnegative
weekly amount classifies as at least "regular". -/
def lowThresholds : Thresholds :=
  { githubRegularMonthlyMinimum := .finite 5
    githubHighlightedMonthlyMinimum := .finite 20
    liberapayRegularWeeklyMinimum := .finite 0
    liberapayHighlightedWeeklyMinimum := .finite 1 }

/-- An otherwise healthy active public sponsorship node whose tier price
text is `NaN`. -/
def nanPriceNode : GNode :=
  { isActive := some true
    isOneTimePayment := some false
    privacyLevel := some ("PUBLIC")
    entityLogin := some ("octocat")
    entityName := none
    entityUrl := some ("https://github.com/octocat")
    createdAt := some ("2024-01-02T03:04:05Z")
    tierCents := some ("NaN")
    tierDollars := none }

/-- The same node marked as a one-time payment with a valid price. -/
def oneTimeNode : GNode :=
  { nanPriceNode with isOneTimePayment := some true, tierCents := some ("1000") }

/-- A sponsor whose display name contains a backslash (`A\1B`), as the
GitHub API may deliver. -/
def backslashSponsor : Sponsor :=
  { platform := ("github")
    key := ("mal")
    name := ("A\\1B")
    profileUrl := ("https://example.com/p")
    avatarUrl := ("https://example.com/a.png")
    startedAt := 0
    tier := ("regular")
    monthlyAmount := .finite 5
    currency := ("USD") }

/-- Two sponsors sharing the identity `("github", "dup")`: `dupA` first. -/
def dupA : Sponsor :=
  { platform := ("github")
    key := ("dup")
    name := ("First")
    profileUrl := ("https://example.com/1")
    avatarUrl := ("https://example.com/1.png")
    startedAt := 0
    tier := ("regular")
    monthlyAmount := .finite 5
    currency := ("USD") }

/-- A later record with the same identity as `dupA`. -/
def dupB : Sponsor :=
  { dupA with name := ("Second"), startedAt := 1 }

/-! # Theorems -/

/-! ## Digit-length correctness -/

theorem digLenAux_correct : ∀ f n, 1 ≤ n → n ≤ f →
    10 ^ (digLenAux f n - 1) ≤ n ∧ n < 10 ^ digLenAux f n := by
  intro f
  induction f with
  | zero => intro n h1 h2; omega
  | succ f ih =>
    intro n h1 h2
    unfold digLenAux
    by_cases h : n < 10
    · rw [if_pos h]
      norm_num
      omega
    · rw [if_neg h]
      push_neg at h
      have hd1 : 1 ≤ n / 10 := (Nat.one_le_div_iff (by norm_num)).mpr h
      have hdm : 10 * (n / 10) ≤ n ∧ n < 10 * (n / 10) + 10 := by
        have h1' := Nat.div_add_mod n 10
        have h2' := Nat.mod_lt n (show 0 < 10 by norm_num)
        omega
      have hd2 : n / 10 ≤ f := by omega
      obtain ⟨hl, hr⟩ := ih (n / 10) hd1 hd2
      have hlen1 : 1 ≤ digLenAux f (n / 10) := by
        by_contra hc
        push_neg at hc
        interval_cases h' : digLenAux f (n / 10)
        · simp at hr; omega
      constructor
      · have heq : digLenAux f (n / 10) + 1 - 1 = (digLenAux f (n / 10) - 1) + 1 := by omega
        rw [heq, pow_succ]
        calc 10 ^ (digLenAux f (n / 10) - 1) * 10 ≤ (n / 10) * 10 :=
              Nat.mul_le_mul_right 10 hl
          _ ≤ n := by omega
      · rw [pow_succ]
        calc n < (n / 10 + 1) * 10 := by omega
          _ ≤ 10 ^ digLenAux f (n / 10) * 10 := Nat.mul_le_mul_right 10 (by omega)

theorem digLen_correct (n : ℕ) (h : 1 ≤ n) :
    10 ^ (digLen n - 1) ≤ n ∧ n < 10 ^ digLen n :=
  digLenAux_correct n n h le_rfl

theorem digLen_pos (n : ℕ) (h : 1 ≤ n) : 1 ≤ digLen n := by
  obtain ⟨-, h2⟩ := digLen_correct n h
  rcases Nat.eq_zero_or_pos (digLen n) with h0 | h0
  · rw [h0, pow_zero] at h2
    omega
  · exact h0

/-! ## `pow10` facts -/

theorem pow10_pos (z : ℤ) : 0 < pow10 z := zpow_pos (by norm_num) z

theorem pow10_add (a b : ℤ) : pow10 (a + b) = pow10 a * pow10 b :=
  zpow_add₀ (by norm_num) a b

theorem pow10_natCast (n : ℕ) : pow10 (n : ℤ) = (10 : ℚ) ^ n := zpow_natCast 10 n

theorem pow10_mono {a b : ℤ} (h : a < b) : pow10 a < pow10 b :=
  zpow_lt_zpow_right₀ (by norm_num) h

theorem pow10_le_of_le {a b : ℤ} (h : a ≤ b) : pow10 a ≤ pow10 b := by
  rcases eq_or_lt_of_le h with rfl | hlt
  · exact le_rfl
  · exact (pow10_mono hlt).le

theorem pow10_mul_eq_one {a b : ℤ} (h : a + b = 0) : pow10 a * pow10 b = 1 := by
  rw [← pow10_add, h]
  simp [pow10]

/-! ## Rounding facts -/

theorem rhe_intCast (z : ℤ) : rhe (z : ℚ) = z := by
  simp [rhe, Int.floor_intCast]

theorem rhe_err (q : ℚ) : |(rhe q : ℚ) - q| ≤ 1 / 2 := by
  have hf : (⌊q⌋ : ℚ) ≤ q := Int.floor_le q
  have hf2 : q < ⌊q⌋ + 1 := Int.lt_floor_add_one q
  unfold rhe
  split_ifs with h1 h2 h3
  all_goals rw [abs_le]
  all_goals constructor
  all_goals push_cast
  all_goals linarith

theorem rhe_eq_low (K : ℤ) (x : ℚ) (h1 : (K : ℚ) ≤ x) (h2 : x < (K : ℚ) + 1 / 2) :
    rhe x = K := by
  have hfl : ⌊x⌋ = K := by
    rw [Int.floor_eq_iff]
    constructor
    · exact h1
    · push_cast
      linarith
  unfold rhe
  rw [hfl, if_pos (by push_cast; linarith)]

theorem rhe_eq_high (K : ℤ) (x : ℚ) (h1 : (K : ℚ) + 1 / 2 < x) (h2 : x < (K : ℚ) + 1) :
    rhe x = K + 1 := by
  have hfl : ⌊x⌋ = K := by
    rw [Int.floor_eq_iff]
    constructor
    · linarith
    · push_cast
      linarith
  unfold rhe
  rw [hfl, if_neg (by push_cast; linarith), if_pos (by push_cast; linarith)]

theorem rhu_eq_of_close (K : ℤ) (x : ℚ) (h1 : (K : ℚ) - 1 / 2 < x)
    (h2 : x < (K : ℚ) + 1 / 2) : rhu x = K := by
  unfold rhu
  split_ifs with h
  · rw [Int.floor_eq_iff]
    push_cast
    constructor
    all_goals linarith
  · push_neg at h
    have hK0 : K ≤ 0 := by
      by_contra hc
      push_neg at hc
      have : (1 : ℚ) ≤ (K : ℚ) := by exact_mod_cast hc
      linarith
    have hfl : ⌊1 / 2 - x⌋ = -K := by
      rw [Int.floor_eq_iff]
      push_cast
      constructor
      all_goals linarith
    omega

theorem rhu_eval_nonneg (K : ℤ) (x : ℚ) (h0 : 0 ≤ x) (h1 : (K : ℚ) ≤ x + 1 / 2)
    (h2 : x + 1 / 2 < (K : ℚ) + 1) : rhu x = K := by
  unfold rhu
  rw [if_pos h0, Int.floor_eq_iff]
  constructor
  · exact h1
  · push_cast
    linarith

theorem rhu_bound (q : ℚ) : |(rhu q : ℚ)| ≤ |q| + 1 := by
  unfold rhu
  split_ifs with h
  · have h1 : (⌊q + 1 / 2⌋ : ℚ) ≤ q + 1 / 2 := Int.floor_le _
    have h0 : (0 : ℚ) ≤ (⌊q + 1 / 2⌋ : ℚ) := by
      have : (0 : ℤ) ≤ ⌊q + 1 / 2⌋ := Int.floor_nonneg.mpr (by linarith)
      exact_mod_cast this
    rw [abs_of_nonneg h0, abs_of_nonneg h]
    linarith
  · push_neg at h
    have h1 : (⌊1 / 2 - q⌋ : ℚ) ≤ 1 / 2 - q := Int.floor_le _
    have h0 : (0 : ℚ) ≤ (⌊1 / 2 - q⌋ : ℚ) := by
      have : (0 : ℤ) ≤ ⌊1 / 2 - q⌋ := Int.floor_nonneg.mpr (by linarith)
      exact_mod_cast this
    rw [abs_of_nonpos (by push_cast; linarith), abs_of_neg h]
    push_cast
    linarith

/-! ## Adjusted-exponent and context-rounding facts -/

theorem abs_rat_eq (q : ℚ) : |q| = (q.num.natAbs : ℚ) / (q.den : ℚ) := by
  have hd : (0 : ℚ) < (q.den : ℚ) := by
    have := q.pos
    exact_mod_cast this
  conv_lhs => rw [← Rat.num_div_den q]
  rw [abs_div, Int.cast_natAbs, Int.cast_abs]
  congr 1
  exact abs_of_pos hd

theorem adjExp_spec (q : ℚ) (h : q ≠ 0) :
    pow10 (adjExp q) ≤ |q| ∧ |q| < pow10 (adjExp q + 1) := by
  have hnum : 1 ≤ q.num.natAbs := by
    have : q.num ≠ 0 := Rat.num_ne_zero.mpr h
    omega
  have hden : 1 ≤ q.den := q.pos
  obtain ⟨hn1, hn2⟩ := digLen_correct q.num.natAbs hnum
  obtain ⟨hd1, hd2⟩ := digLen_correct q.den hden
  have hLn1 : 1 ≤ digLen q.num.natAbs := digLen_pos _ hnum
  have hLd1 : 1 ≤ digLen q.den := digLen_pos _ hden
  set Ln := digLen q.num.natAbs with hLn
  set Ld := digLen q.den with hLd
  have habs : |q| = (q.num.natAbs : ℚ) / (q.den : ℚ) := abs_rat_eq q
  have hdenpos : (0 : ℚ) < (q.den : ℚ) := by
    have := q.pos
    exact_mod_cast this
  have hupper : |q| < pow10 ((Ln : ℤ) - (Ld : ℤ) + 1) := by
    rw [habs]
    have hq1 : (q.num.natAbs : ℚ) < (10 : ℚ) ^ Ln := by exact_mod_cast hn2
    have hq2 : ((10 : ℚ) ^ (Ld - 1) : ℚ) ≤ (q.den : ℚ) := by exact_mod_cast hd1
    have hp : pow10 ((Ln : ℤ) - (Ld : ℤ) + 1) = (10 : ℚ) ^ Ln / (10 : ℚ) ^ (Ld - 1) := by
      rw [eq_div_iff (by positivity)]
      rw [show (10 : ℚ) ^ (Ld - 1) = pow10 ((Ld - 1 : ℕ) : ℤ) from (pow10_natCast _).symm,
        ← pow10_add]
      rw [show ((Ln : ℤ) - (Ld : ℤ) + 1 + ((Ld - 1 : ℕ) : ℤ)) = ((Ln : ℕ) : ℤ) by omega]
      exact pow10_natCast Ln
    rw [hp, div_lt_div_iff₀ hdenpos (by positivity)]
    have hnn : (0 : ℚ) ≤ (q.num.natAbs : ℚ) := by positivity
    nlinarith
  have hlower : pow10 ((Ln : ℤ) - (Ld : ℤ) - 1) < |q| := by
    rw [habs]
    have hq1 : ((10 : ℚ) ^ (Ln - 1) : ℚ) ≤ (q.num.natAbs : ℚ) := by exact_mod_cast hn1
    have hq2 : (q.den : ℚ) < (10 : ℚ) ^ Ld := by exact_mod_cast hd2
    have hp : pow10 ((Ln : ℤ) - (Ld : ℤ) - 1) = (10 : ℚ) ^ (Ln - 1) / (10 : ℚ) ^ Ld := by
      rw [eq_div_iff (by positivity)]
      rw [show (10 : ℚ) ^ Ld = pow10 ((Ld : ℕ) : ℤ) from (pow10_natCast _).symm, ← pow10_add]
      rw [show ((Ln : ℤ) - (Ld : ℤ) - 1 + ((Ld : ℕ) : ℤ)) = ((Ln - 1 : ℕ) : ℤ) by omega]
      exact pow10_natCast (Ln - 1)
    rw [hp, div_lt_div_iff₀ (by positivity) hdenpos]
    have hpw : (0 : ℚ) < (10 : ℚ) ^ (Ln - 1) := by positivity
    nlinarith
  unfold adjExp
  rw [← hLn, ← hLd]
  split_ifs with hcase
  · exact ⟨hcase, hupper⟩
  · push_neg at hcase
    refine ⟨hlower.le, ?_⟩
    rw [show ((Ln : ℤ) - (Ld : ℤ) - 1 + 1) = ((Ln : ℤ) - (Ld : ℤ)) by ring]
    exact hcase

theorem adjExp_unique (q : ℚ) (e : ℤ) (hq : q ≠ 0) (h1 : pow10 e ≤ |q|)
    (h2 : |q| < pow10 (e + 1)) : adjExp q = e := by
  obtain ⟨g1, g2⟩ := adjExp_spec q hq
  by_contra hne
  rcases lt_or_gt_of_ne hne with hlt | hgt
  · have : pow10 (adjExp q + 1) ≤ pow10 e := pow10_le_of_le (by omega)
    have := lt_of_lt_of_le g2 this
    exact absurd h1 (not_le.mpr this)
  · have : pow10 (e + 1) ≤ pow10 (adjExp q) := pow10_le_of_le (by omega)
    have := lt_of_lt_of_le h2 this
    exact absurd g1 (not_le.mpr this)

theorem ctxRound_exact (q : ℚ) (z : ℤ) (hz : q * pow10 (27 - adjExp q) = (z : ℚ)) :
    ctxRound q = q := by
  unfold ctxRound
  split_ifs with h
  · exact h.symm
  · rw [hz, rhe_intCast, ← hz, mul_assoc, pow10_mul_eq_one (by ring), mul_one]

theorem ctxRound_err (q : ℚ) (h : q ≠ 0) :
    |ctxRound q - q| ≤ (1 / 2) * pow10 (adjExp q - 27) := by
  unfold ctxRound
  rw [if_neg h]
  set e := adjExp q with he
  have hcancel : pow10 (27 - e) * pow10 (e - 27) = 1 := pow10_mul_eq_one (by ring)
  have hsplit : (rhe (q * pow10 (27 - e)) : ℚ) * pow10 (e - 27) - q
      = ((rhe (q * pow10 (27 - e)) : ℚ) - q * pow10 (27 - e)) * pow10 (e - 27) := by
    rw [sub_mul, mul_assoc, hcancel, mul_one]
  rw [hsplit, abs_mul, abs_of_pos (pow10_pos _)]
  exact mul_le_mul_of_nonneg_right (rhe_err _) (pow10_pos _).le

theorem ctxRound_eval (q : ℚ) (e K : ℤ) (hq : q ≠ 0) (h1 : pow10 e ≤ |q|)
    (h2 : |q| < pow10 (e + 1)) (hr : rhe (q * pow10 (27 - e)) = K) :
    ctxRound q = (K : ℚ) * pow10 (e - 27) := by
  unfold ctxRound
  rw [if_neg hq, adjExp_unique q e hq h1 h2, hr]

/-! ## Evaluation lemmas for `Dec` operations -/

theorem decLe_finite (a b : ℚ) : decLe (.finite a) (.finite b) = .ok (decide (a ≤ b)) := rfl

theorem decLt_finite (a b : ℚ) : decLt (.finite a) (.finite b) = .ok (decide (a < b)) := rfl

theorem Dec_mul_finite (a b : ℚ) :
    Dec.mul (.finite a) (.finite b) = .finite (ctxRound (a * b)) := rfl

theorem Dec_div_finite (a b : ℚ) (hb : b ≠ 0) :
    Dec.div (.finite a) (.finite b) = .finite (ctxRound (a / b)) := by
  simp [Dec.div, hb]

theorem quantize2HU_finite (x : ℚ) (hside : (rhu (x * 100)).natAbs < 10 ^ 28) :
    Dec.quantize2HU (.finite x) = .ok (.finite ((rhu (x * 100) : ℚ) / 100)) := by
  rw [show Dec.quantize2HU (.finite x)
      = (if (rhu (x * 100)).natAbs < 10 ^ 28 then
          Except.ok (.finite ((rhu (x * 100) : ℚ) / 100)) else .error ()) from rfl,
    if_pos hside]

/-- Closed form of `monthly_tier` on finite decimals. -/
theorem monthlyTier_finite (m r h : ℚ) :
    monthlyTier (.finite m) (.finite r) (.finite h) =
      .ok (if h ≤ m then some ("highlighted")
           else if r ≤ m ∧ m < h then some ("regular") else none) := by
  unfold monthlyTier
  rw [decLe_finite, decLe_finite, decLt_finite]
  by_cases h1 : h ≤ m
  · rw [decide_eq_true h1, if_pos h1]
  · rw [decide_eq_false h1, if_neg h1]
    by_cases h2 : r ≤ m
    · rw [decide_eq_true h2]
      by_cases h3 : m < h
      · rw [decide_eq_true h3, if_pos ⟨h2, h3⟩]
      · rw [decide_eq_false h3, if_neg (fun hc => h3 hc.2)]
    · rw [decide_eq_false h2, if_neg (fun hc => h2 hc.1)]

theorem monthlyTier_nan (r h : Dec) : monthlyTier .nan r h = .error () := by
  cases h
  all_goals rfl

/-! ## C4 — trichotomy of `monthly_tier` -/

/-- C4: for every (finite) monthly amount and pair of minimums,
`monthly_tier` returns "highlighted" exactly when `h ≤ m`, "regular"
exactly when `r ≤ m < h`, and exclusion (`None`) otherwise (that is,
exactly when `m < h` and `m < r`). -/
theorem C4_monthly_tier_trichotomy (m r h : ℚ) :
    (monthlyTier (.finite m) (.finite r) (.finite h) = .ok (some ("highlighted")) ↔ h ≤ m)
    ∧ (monthlyTier (.finite m) (.finite r) (.finite h) = .ok (some ("regular")) ↔
        r ≤ m ∧ m < h)
    ∧ (monthlyTier (.finite m) (.finite r) (.finite h) = .ok none ↔ m < r ∧ m < h) := by
  rw [monthlyTier_finite]
  refine ⟨⟨?_, ?_⟩, ⟨?_, ?_⟩, ⟨?_, ?_⟩⟩
  · intro heq
    split_ifs at heq with h1 h2
    · exact h1
    · simp at heq
    · simp at heq
  · intro hle
    rw [if_pos hle]
  · intro heq
    split_ifs at heq with h1 h2
    · simp at heq
    · exact h2
    · simp at heq
  · intro hc
    rw [if_neg (not_le.mpr hc.2), if_pos hc]
  · intro heq
    split_ifs at heq with h1 h2
    · simp at heq
    · simp at heq
    · push_neg at h1
      refine ⟨?_, h1⟩
      by_contra hcon
      push_neg at hcon
      exact h2 ⟨hcon, h1⟩
  · intro hc
    rw [if_neg (not_le.mpr hc.2), if_neg (fun hand => absurd hc.1 (not_lt.mpr hand.1))]

/-! ## C5 — monotonicity of `monthly_tier` -/

/-- C5: under fixed finite thresholds with `regular ≤ highlighted`, a
larger amount never classifies as strictly more exclusive, in the order
excluded < regular < highlighted. -/
theorem C5_monthly_tier_monotone (a1 a2 r h : ℚ) (hlt : a1 < a2) (_hrh : r ≤ h) :
    ∃ t1 t2, monthlyTier (.finite a1) (.finite r) (.finite h) = .ok t1
      ∧ monthlyTier (.finite a2) (.finite r) (.finite h) = .ok t2
      ∧ tierRank t1 ≤ tierRank t2 := by
  refine ⟨_, _, monthlyTier_finite a1 r h, monthlyTier_finite a2 r h, ?_⟩
  have rankEval : ∀ m : ℚ,
      tierRank (if h ≤ m then some ("highlighted")
        else if r ≤ m ∧ m < h then some ("regular") else none)
      = if h ≤ m then 2 else if r ≤ m then 1 else 0 := by
    intro m
    by_cases h1 : h ≤ m
    · rw [if_pos h1, if_pos h1]
      rfl
    · rw [if_neg h1, if_neg h1]
      by_cases h2 : r ≤ m
      · rw [if_pos ⟨h2, not_le.mp h1⟩, if_pos h2]
        rfl
      · rw [if_neg (fun hc => h2 hc.1), if_neg h2]
        rfl
  rw [rankEval, rankEval]
  split_ifs with c1 c2 c3 c4 c5
  all_goals try norm_num
  all_goals linarith

/-- Witness for C5 at amounts 5 < 10 with thresholds 4 ≤ 20. -/
theorem C5_monthly_tier_monotone_witness :
    ((5 : ℚ) < 10) ∧ ((4 : ℚ) ≤ 20)
    ∧ ∃ t1 t2, monthlyTier (.finite (5 : ℚ)) (.finite 4) (.finite 20) = .ok t1
        ∧ monthlyTier (.finite (10 : ℚ)) (.finite 4) (.finite 20) = .ok t2
        ∧ tierRank t1 ≤ tierRank t2 :=
  ⟨by norm_num, by norm_num, C5_monthly_tier_monotone 5 10 4 20 (by norm_num) (by norm_num)⟩

/-! ## C9 — non-finite parsed amounts -/

/-- C9 counterexample: for the input string `Infinity`, `parse_decimal`
returns a value, and `monthly_tier` on that non-finite amount returns the
tier "highlighted" without raising — so the claim's "raises an exception
instead of returning a tier", applied to `Infinity`, is false. -/
theorem C9_infinity_counterexample :
    parseDecimal (some ("Infinity")) = some (.inf false)
    ∧ monthlyTier (.inf false) (.finite 5) (.finite 20) = .ok (some ("highlighted")) := by
  constructor
  · decide
  · rfl

/-- C9 as amended: `parse_decimal` maps the text `NaN` to a NaN value
(not absence) and `monthly_tier` on a NaN raises for every pair of
minimums; `Infinity` likewise parses to a value (and flows on to a tier,
see the counterexample).  Consequently a GitHub node whose tier price
text is `NaN` — active, public, not one-time, with valid login, URL and
timestamp — makes the adapter raise instead of skipping the record. -/
theorem C9_nan_aborts :
    parseDecimal (some ("NaN")) = some .nan
    ∧ (∀ r h : Dec, monthlyTier .nan r h = .error ())
    ∧ parseDecimal (some ("Infinity")) = some (.inf false)
    ∧ githubNodeToSponsor nanPriceNode lowThresholds = .error () := by
  refine ⟨by decide, monthlyTier_nan, by decide, by decide⟩

/-! ## Parser correctness on plain decimal strings (for C2 and C3) -/

theorem pow10_neg (a : ℤ) : pow10 (-a) = (pow10 a)⁻¹ := zpow_neg 10 a

theorem digitChar_props {d : ℕ} (h : d < 10) :
    (digitChar d).isDigit = true ∧ digitVal (digitChar d) = d
    ∧ (digitChar d).toLower = digitChar d ∧ isWsChar (digitChar d) = false
    ∧ digitChar d ≠ '_' ∧ digitChar d ≠ '+' ∧ digitChar d ≠ '-'
    ∧ digitChar d ≠ 'e' ∧ digitChar d ≠ 'E'
    ∧ (digitChar d).toLower ≠ 'i' ∧ (digitChar d).toLower ≠ 'n'
    ∧ (digitChar d).toLower ≠ 's' := by
  interval_cases d <;> decide

theorem dropWhile_all_false {p : Char → Bool} :
    ∀ {l : List Char}, (∀ c ∈ l, p c = false) → l.dropWhile p = l := by
  intro l h
  cases l with
  | nil => rfl
  | cons c cs =>
    rw [List.dropWhile_cons, h c (List.mem_cons_self c cs)]
    simp

theorem trimChars_eq_self {l : List Char} (h : ∀ c ∈ l, isWsChar c = false) :
    trimChars l = l := by
  unfold trimChars
  rw [dropWhile_all_false h,
    dropWhile_all_false (fun c hc => h c (List.mem_reverse.mp hc)), List.reverse_reverse]

theorem underscoreAux_of_not_mem :
    ∀ (l : List Char) (prev : Char), '_' ∉ l → underscoreAux prev l = true := by
  intro l
  induction l with
  | nil => intro prev _; rfl
  | cons c cs ih =>
    intro prev h
    have hcne : c ≠ '_' := fun hc => h (List.mem_cons.mpr (Or.inl hc.symm))
    cases cs with
    | nil =>
      simp only [underscoreAux]
      simp [hcne]
    | cons d rest2 =>
      simp only [underscoreAux]
      rw [if_neg hcne]
      exact ih c (fun hc => h (List.mem_cons_of_mem c hc))

theorem underscoresOk_of_not_mem {l : List Char} (h : '_' ∉ l) : underscoresOk l = true := by
  cases l with
  | nil => rfl
  | cons c cs =>
    simp only [underscoresOk]
    rw [if_neg (fun hc => h (List.mem_cons.mpr (Or.inl hc.symm)))]
    exact underscoreAux_of_not_mem cs c (fun hc => h (List.mem_cons_of_mem c hc))

theorem filter_of_not_mem {l : List Char} (h : '_' ∉ l) :
    l.filter (fun c => c ≠ '_') = l := by
  apply List.filter_eq_self.mpr
  intro c hc
  simp only [ne_eq, decide_not, Bool.not_eq_eq_eq_not, Bool.not_true, decide_eq_false_iff_not]
  exact fun heq => h (heq ▸ hc)

theorem takeDigits_split (ds rest : List Char) (hds : ∀ c ∈ ds, c.isDigit = true)
    (hrest : ∀ c, rest.head? = some c → c.isDigit = false) :
    takeDigits (ds ++ rest) = (ds, rest) := by
  induction ds with
  | nil =>
    rw [List.nil_append]
    cases rest with
    | nil => rfl
    | cons c cs =>
      unfold takeDigits
      rw [hrest c rfl]
      simp
  | cons d ds ih =>
    rw [List.cons_append]
    unfold takeDigits
    rw [hds d (List.mem_cons_self d ds)]
    rw [ih (fun c hc => hds c (List.mem_cons_of_mem d hc))]
    simp

theorem splitAtExp_of_no_exp (l : List Char) (h : ∀ c ∈ l, c ≠ 'e' ∧ c ≠ 'E') :
    splitAtExp l = (l, none) := by
  induction l with
  | nil => rfl
  | cons c cs ih =>
    unfold splitAtExp
    have hc := h c (List.mem_cons_self c cs)
    rw [if_neg (by simp [hc.1, hc.2])]
    rw [ih (fun x hx => h x (List.mem_cons_of_mem c hx))]

theorem parseSpecial_none_of_head (neg : Bool) (c : Char) (cs : List Char)
    (h1 : c.toLower ≠ 'i') (h2 : c.toLower ≠ 'n') (h3 : c.toLower ≠ 's') :
    parseSpecial neg (c :: cs) = none := by
  simp only [parseSpecial]
  rw [List.map_cons]
  split_ifs with g1 g2 g3
  · exfalso
    simp only [Bool.or_eq_true, decide_eq_true_eq] at g1
    rcases g1 with g | g
    · exact h1 (by simpa using congrArg List.headI g)
    · exact h1 (by simpa using congrArg List.headI g)
  · exfalso
    simp only [Bool.and_eq_true, decide_eq_true_eq] at g2
    have ht := g2.1
    rw [show (4 : ℕ) = 3 + 1 from rfl, List.take_succ_cons] at ht
    exact h3 (by simpa using congrArg List.headI ht)
  · exfalso
    simp only [Bool.and_eq_true, decide_eq_true_eq] at g3
    have ht := g3.1
    rw [show (3 : ℕ) = 2 + 1 from rfl, List.take_succ_cons] at ht
    exact h2 (by simpa using congrArg List.headI ht)
  · rfl

theorem digitsVal_map (l : List ℕ) (h : ∀ d ∈ l, d < 10) :
    digitsVal (l.map digitChar) = digitsNatVal l := by
  unfold digitsVal digitsNatVal
  suffices haux : ∀ a : ℕ, ((l.map digitChar).foldl (fun acc c => acc * 10 + digitVal c) a)
      = l.foldl (fun a d => a * 10 + d) a from haux 0
  induction l with
  | nil => intro a; rfl
  | cons d ds ih =>
    intro a
    rw [List.map_cons, List.foldl_cons, List.foldl_cons,
      (digitChar_props (h d (List.mem_cons_self d ds))).2.1]
    exact ih (fun x hx => h x (List.mem_cons_of_mem d hx)) _

theorem renderPlain_chars (neg : Bool) (ids fds : List ℕ) :
    ∀ c ∈ renderPlain neg ids fds,
      c = '-' ∨ c = '.' ∨ ∃ d, d ∈ ids ++ fds ∧ c = digitChar d := by
  intro c hc
  unfold renderPlain at hc
  rw [List.mem_append, List.mem_append] at hc
  rcases hc with (hc | hc) | hc
  · cases neg with
    | true => simp at hc; exact Or.inl hc
    | false => simp at hc
  · rcases List.mem_map.mp hc with ⟨d, hd, rfl⟩
    exact Or.inr (Or.inr ⟨d, List.mem_append.mpr (Or.inl hd), rfl⟩)
  · rcases List.mem_cons.mp hc with rfl | hc
    · exact Or.inr (Or.inl rfl)
    · rcases List.mem_map.mp hc with ⟨d, hd, rfl⟩
      exact Or.inr (Or.inr ⟨d, List.mem_append.mpr (Or.inr hd), rfl⟩)

/-- The mantissa part of a rendered plain decimal evaluates exactly. -/
theorem parseUnsignedMantissa_renderPlain (ids fds : List ℕ)
    (hi : ∀ d ∈ ids, d < 10) (hf : ∀ d ∈ fds, d < 10) (hne : ids ≠ [] ∨ fds ≠ []) :
    parseUnsignedMantissa (ids.map digitChar ++ '.' :: fds.map digitChar)
      = some (digitsNatVal (ids ++ fds), fds.length) := by
  have ht1 : takeDigits (ids.map digitChar ++ '.' :: fds.map digitChar)
      = (ids.map digitChar, '.' :: fds.map digitChar) :=
    takeDigits_split _ _
      (fun c hc => by
        rcases List.mem_map.mp hc with ⟨d, hd, rfl⟩
        exact (digitChar_props (hi d hd)).1)
      (fun c hc => by
        rw [List.head?_cons, Option.some.injEq] at hc
        rw [← hc]
        rfl)
  have ht2 : takeDigits (fds.map digitChar) = (fds.map digitChar, []) := by
    have := takeDigits_split (fds.map digitChar) []
      (fun c hc => by
        rcases List.mem_map.mp hc with ⟨d, hd, rfl⟩
        exact (digitChar_props (hf d hd)).1)
      (fun c hc => by simp at hc)
    rw [List.append_nil] at this
    exact this
  simp only [parseUnsignedMantissa, ht1, ht2]
  rw [if_neg (by
    intro hand
    rcases hne with hn | hn
    · exact hn (List.map_eq_nil_iff.mp hand.1)
    · exact hn (List.map_eq_nil_iff.mp hand.2))]
  rw [← List.map_append, digitsVal_map (ids ++ fds)
    (fun d hd => (List.mem_append.mp hd).elim (hi d) (hf d)), List.length_map]

/-- `Decimal(text)` evaluates a plain rendered decimal string exactly:
sign times the digits' value, scaled by the number of fractional
digits — pure decimal arithmetic with no rounding of any kind. -/
theorem parseDecCore_renderPlain (neg : Bool) (ids fds : List ℕ)
    (hi : ∀ d ∈ ids, d < 10) (hf : ∀ d ∈ fds, d < 10) (hne : ids ≠ [] ∨ fds ≠ []) :
    parseDecCore (renderPlain neg ids fds)
      = some (.finite ((if neg then -1 else 1) * (digitsNatVal (ids ++ fds) : ℚ)
          / 10 ^ fds.length)) := by
  have hchars := renderPlain_chars neg ids fds
  have hnu : '_' ∉ renderPlain neg ids fds := by
    intro hmem
    rcases hchars _ hmem with hcon | hcon | ⟨d, hd, hcon⟩
    · exact absurd hcon (by decide)
    · exact absurd hcon (by decide)
    · exact absurd hcon.symm
        (digitChar_props ((List.mem_append.mp hd).elim (hi d) (hf d))).2.2.2.2.1
  have hsign : parseSign (renderPlain neg ids fds)
      = (neg, ids.map digitChar ++ '.' :: fds.map digitChar) := by
    cases neg with
    | true => rfl
    | false =>
      unfold renderPlain
      rw [if_neg (by simp), List.nil_append]
      cases ids with
      | nil =>
        rw [List.map_nil, List.nil_append]
        rfl
      | cons d ds =>
        rw [List.map_cons, List.cons_append]
        simp only [parseSign]
        have hp := digitChar_props (hi d (List.mem_cons_self d ds))
        rw [if_neg hp.2.2.2.2.2.1, if_neg hp.2.2.2.2.2.2.1]
  have hspec : parseSpecial neg (ids.map digitChar ++ '.' :: fds.map digitChar) = none := by
    cases ids with
    | nil =>
      rw [List.map_nil, List.nil_append]
      exact parseSpecial_none_of_head neg '.' _ (by decide) (by decide) (by decide)
    | cons d ds =>
      rw [List.map_cons, List.cons_append]
      have hp := digitChar_props (hi d (List.mem_cons_self d ds))
      exact parseSpecial_none_of_head neg _ _ hp.2.2.2.2.2.2.2.2.2.1
        hp.2.2.2.2.2.2.2.2.2.2.1 hp.2.2.2.2.2.2.2.2.2.2.2
  have hsplit : splitAtExp (ids.map digitChar ++ '.' :: fds.map digitChar)
      = (ids.map digitChar ++ '.' :: fds.map digitChar, none) := by
    apply splitAtExp_of_no_exp
    intro c hc
    have hc' : c ∈ renderPlain neg ids fds := by
      unfold renderPlain
      rcases List.mem_append.mp hc with hm | hm
      · exact List.mem_append.mpr (Or.inl (List.mem_append.mpr (Or.inr hm)))
      · exact List.mem_append.mpr (Or.inr hm)
    rcases hchars _ hc' with rfl | rfl | ⟨d, hd, rfl⟩
    · exact ⟨by decide, by decide⟩
    · exact ⟨by decide, by decide⟩
    · have hp := digitChar_props ((List.mem_append.mp hd).elim (hi d) (hf d))
      exact ⟨hp.2.2.2.2.2.2.2.1, hp.2.2.2.2.2.2.2.2.1⟩
  simp only [parseDecCore, underscoresOk_of_not_mem hnu, Bool.not_true, Bool.false_eq_true,
    if_false, filter_of_not_mem hnu, hsign, hspec, hsplit,
    parseUnsignedMantissa_renderPlain ids fds hi hf hne, parseExpPart]
  congr 1
  congr 1
  rw [show ((0 : ℤ) - (fds.length : ℤ)) = -(fds.length : ℤ) by ring, pow10_neg, pow10_natCast,
    div_eq_mul_inv]

/-- `parse_decimal` evaluates a rendered plain decimal string to the
exact signed scaled digit value. -/
theorem parseDecimal_renderPlain (neg : Bool) (ids fds : List ℕ)
    (hi : ∀ d ∈ ids, d < 10) (hf : ∀ d ∈ fds, d < 10) (hne : ids ≠ [] ∨ fds ≠ []) :
    parseDecimal (some (String.mk (renderPlain neg ids fds)))
      = some (.finite ((if neg then -1 else 1) * (digitsNatVal (ids ++ fds) : ℚ)
          / 10 ^ fds.length)) := by
  have hchars := renderPlain_chars neg ids fds
  have hnws : ∀ c ∈ renderPlain neg ids fds, isWsChar c = false := by
    intro c hc
    rcases hchars c hc with rfl | rfl | ⟨d, hd, rfl⟩
    · decide
    · decide
    · exact (digitChar_props ((List.mem_append.mp hd).elim (hi d) (hf d))).2.2.2.1
  have hmk : (String.mk (renderPlain neg ids fds)).data = renderPlain neg ids fds := rfl
  simp only [parseDecimal, hmk, trimChars_eq_self hnws]
  rw [if_neg (by
    intro hnil
    have : '.' ∈ renderPlain neg ids fds := by
      unfold renderPlain
      exact List.mem_append.mpr (Or.inr (List.mem_cons_self _ _))
    rw [hnil] at this
    exact absurd this (List.not_mem_nil '.'))]
  exact parseDecCore_renderPlain neg ids fds hi hf hne

/-! ## C2 — totality and exactness of the parsing helpers -/

/-- C2: `parse_decimal` and `parse_started_at` are total functions into
`Option` (their internal exceptions are caught): absent or blank input
yields absence for both; a well-formed plain decimal string evaluates to
the exact decimal value — sign times the digit value over the power of
ten, with no binary floating point (no rounding whatsoever); and
malformed numbers and timestamps yield absence, illustrated on concrete
malformed inputs of each kind. -/
theorem C2_parsing_total_and_exact :
    (parseDecimal none = none)
    ∧ (∀ s : String, trimChars s.data = [] → parseDecimal (some s) = none)
    ∧ (∀ (s : String) (d : Bool), trimChars s.data = [] → parseStartedAt s d = none)
    ∧ (∀ (neg : Bool) (ids fds : List ℕ), (∀ d ∈ ids, d < 10) → (∀ d ∈ fds, d < 10) →
        (ids ≠ [] ∨ fds ≠ []) →
        parseDecimal (some (String.mk (renderPlain neg ids fds)))
          = some (.finite ((if neg then -1 else 1) * (digitsNatVal (ids ++ fds) : ℚ)
              / 10 ^ fds.length)))
    ∧ (parseDecimal (some ("abc")) = none ∧ parseDecimal (some ("12.3.4")) = none
        ∧ parseDecimal (some ("1.2e")) = none ∧ parseDecimal (some ("nan.5")) = none)
    ∧ (parseStartedAt ("not-a-date") false = none
        ∧ parseStartedAt ("2024-13-01") true = none
        ∧ parseStartedAt ("2024-01-02T99:00:00") false = none
        ∧ parseStartedAt ("2024-02-30") true = none) := by
  refine ⟨rfl, ?_, ?_, ?_, ?_, ?_⟩
  · intro s hs
    simp only [parseDecimal, hs]
    rfl
  · intro s d hs
    simp only [parseStartedAt, hs]
    rfl
  · exact parseDecimal_renderPlain
  · refine ⟨by decide, by decide, by decide, by decide⟩
  · refine ⟨by decide, by decide, by decide, by decide⟩

/-- Witness for C2 on the blank string and the rendered string `12.34`. -/
theorem C2_parsing_total_and_exact_witness :
    (trimChars (" ").data = [] ∧ parseDecimal (some (" ")) = none)
    ∧ ((∀ d ∈ ([1, 2] : List ℕ), d < 10) ∧ (∀ d ∈ ([3, 4] : List ℕ), d < 10)
        ∧ (([1, 2] : List ℕ) ≠ [] ∨ ([3, 4] : List ℕ) ≠ [])
        ∧ parseDecimal (some (String.mk (renderPlain false [1, 2] [3, 4])))
          = some (.finite ((if false then -1 else 1)
              * (digitsNatVal (([1, 2] : List ℕ) ++ [3, 4]) : ℚ)
              / 10 ^ ([3, 4] : List ℕ).length))) :=
  ⟨⟨by decide, C2_parsing_total_and_exact.2.1 (" ") (by decide)⟩,
    by decide, by decide, by decide,
    C2_parsing_total_and_exact.2.2.2.1 false [1, 2] [3, 4] (by decide) (by decide) (by decide)⟩

/-! ## C8 — the GitHub adapter's per-node filters and amount -/

/-- C8: a sponsorship node yields a `Sponsor` only if it is active, not a
one-time payment, and publicly visible; when a sponsor is produced its
monthly amount is the parsed cents field divided by 100 when that field
is parsable and otherwise the parsed dollars field; a node with neither
field parsable is skipped. -/
theorem C8_github_adapter (node : GNode) (t : Thresholds) :
    (truthy node.isOneTimePayment = true → githubNodeToSponsor node t = .ok none)
    ∧ (truthy node.isActive = false → githubNodeToSponsor node t = .ok none)
    ∧ (node.privacyLevel ≠ some ("PUBLIC") → githubNodeToSponsor node t = .ok none)
    ∧ (parseDecimal node.tierCents = none → parseDecimal node.tierDollars = none →
        githubNodeToSponsor node t = .ok none)
    ∧ (∀ s : Sponsor, githubNodeToSponsor node t = .ok (some s) →
        truthy node.isActive = true ∧ truthy node.isOneTimePayment = false
        ∧ node.privacyLevel = some ("PUBLIC")
        ∧ ((∃ c : Dec, parseDecimal node.tierCents = some c
              ∧ s.monthlyAmount = Dec.div c (.finite 100))
           ∨ (parseDecimal node.tierCents = none
              ∧ parseDecimal node.tierDollars = some s.monthlyAmount))) := by
  refine ⟨?_, ?_, ?_, ?_, ?_⟩
  · intro h
    simp only [githubNodeToSponsor, h]
    simp
  · intro h
    simp only [githubNodeToSponsor, h]
    simp
  · intro h
    simp only [githubNodeToSponsor]
    split_ifs
    all_goals rfl
  · intro hc hd
    simp only [githubNodeToSponsor, hc, hd]
    split_ifs
    all_goals try rfl
    all_goals split
    all_goals rfl
  · intro s hs
    simp only [githubNodeToSponsor] at hs
    by_cases c1 : (!(truthy node.isActive) || truthy node.isOneTimePayment) = true
    · rw [if_pos c1] at hs
      simp at hs
    · rw [if_neg c1] at hs
      have c1' := c1
      simp only [Bool.or_eq_true, Bool.not_eq_true'] at c1'
      push_neg at c1'
      obtain ⟨ha', ho'⟩ := c1'
      have hact : truthy node.isActive = true := by
        cases hb : truthy node.isActive
        · exact absurd hb ha'
        · rfl
      have hone : truthy node.isOneTimePayment = false := by
        cases hb : truthy node.isOneTimePayment
        · rfl
        · exact absurd hb ho'
      by_cases c2 : node.privacyLevel ≠ some ("PUBLIC")
      · rw [if_pos c2] at hs
        simp at hs
      · rw [if_neg c2] at hs
        push_neg at c2
        refine ⟨hact, hone, c2, ?_⟩
        rcases hps : parseStartedAt (node.createdAt.getD ("")) false with _ | startedAt
        · simp only [hps] at hs
          simp at hs
        · simp only [hps] at hs
          rcases hc : parseDecimal node.tierCents with _ | c
          · simp only [hc] at hs
            rcases hd : parseDecimal node.tierDollars with _ | dval
            · simp only [hd] at hs
              simp at hs
            · simp only [hd] at hs
              refine Or.inr ⟨rfl, ?_⟩
              rcases hmt : monthlyTier dval t.githubRegularMonthlyMinimum
                  t.githubHighlightedMonthlyMinimum with e | tr
              · simp only [hmt] at hs
                split_ifs at hs
                all_goals simp at hs
              · simp only [hmt] at hs
                cases tr with
                | none => simp at hs
                | some tierStr =>
                  split_ifs at hs
                  · simp at hs
                  · simp only [Except.ok.injEq, Option.some.injEq] at hs
                    rw [← hs]
                  · simp only [Except.ok.injEq, Option.some.injEq] at hs
                    rw [← hs]
          · simp only [hc] at hs
            refine Or.inl ⟨c, rfl, ?_⟩
            rcases hmt : monthlyTier (Dec.div c (.finite 100)) t.githubRegularMonthlyMinimum
                t.githubHighlightedMonthlyMinimum with e | tr
            · simp only [hmt] at hs
              split_ifs at hs
              all_goals simp at hs
            · simp only [hmt] at hs
              cases tr with
              | none => simp at hs
              | some tierStr =>
                split_ifs at hs
                · simp at hs
                · simp only [Except.ok.injEq, Option.some.injEq] at hs
                  rw [← hs]
                · simp only [Except.ok.injEq, Option.some.injEq] at hs
                  rw [← hs]

/-- Witness for C8 at a concrete one-time-payment node. -/
theorem C8_github_adapter_witness :
    truthy oneTimeNode.isOneTimePayment = true
    ∧ githubNodeToSponsor oneTimeNode lowThresholds = .ok none :=
  ⟨by decide, (C8_github_adapter oneTimeNode lowThresholds).1 (by decide)⟩

/-! ## C1 — marker replacement and the region count -/

/-- C1 (code bug): with `count=1`, `subn` performs at most one
substitution, so the `count != 1` check only detects the zero-match case.
A document with two disjoint marker regions is rewritten successfully —
only the first region is replaced — instead of raising the fatal error
the specification requires; a document with one region is rewritten and
one with none raises the error naming the marker. -/
theorem C1_two_regions_not_detected :
    replaceMarker ("A<!-- m -->B<!-- m -->C<!-- m -->D<!-- m -->E") ("m") ("X")
      = .ok ("A<!-- m -->X<!-- m -->C<!-- m -->D<!-- m -->E")
    ∧ replaceMarker ("A<!-- m -->B<!-- m -->C") ("m") ("X")
      = .ok ("A<!-- m -->X<!-- m -->C")
    ∧ replaceMarker ("A<!-- m -->B") ("m") ("X") = .error (.markerNotOnce ("m")) := by
  refine ⟨by decide, by decide, by decide⟩

/-! ## C10 — the replacement is a regex template -/

set_option maxRecDepth 8000 in
/-- C10: a replacement reachable from a sponsor display name containing a
backslash (here `A\1B`, which HTML escaping leaves intact) is interpreted
as a regex substitution template: `replace_marker` raises the
invalid-group-reference error instead of splicing the replacement
literally (and `\g<0>` expands to the whole matched region rather than
staying literal). -/
theorem C10_template_injection :
    ('\\' ∈ (backslashSponsor.name).data)
    ∧ ('\\' ∈ (htmlEscape backslashSponsor.name).data)
    ∧ replaceMarker ("<!-- sponsors -->OLD<!-- sponsors -->") ("sponsors")
        (renderSponsor backslashSponsor regularWidth)
      = .error (.templateError ("invalid group reference"))
    ∧ replaceMarker ("<!-- sponsors -->OLD<!-- sponsors -->") ("sponsors")
        (renderSponsor backslashSponsor regularWidth)
      ≠ .ok (sentinel ("sponsors") ++ renderSponsor backslashSponsor regularWidth
          ++ sentinel ("sponsors"))
    ∧ replaceMarker ("<!-- sponsors -->OLD<!-- sponsors -->") ("sponsors") ("\\g<0>")
      = .ok ("<!-- sponsors --><!-- sponsors -->OLD<!-- sponsors --><!-- sponsors -->") := by
  refine ⟨by decide, by decide, by decide, by decide, by decide⟩

/-! ## C3 — Liberapay monthly amount versus exact round-half-up -/

theorem ctxRound_zero : ctxRound 0 = 0 := by
  unfold ctxRound
  rw [if_pos rfl]

theorem rhu_zero : rhu 0 = 0 :=
  rhu_eval_nonneg 0 0 le_rfl (by norm_num) (by norm_num)

theorem natAbs_lt_of_abs_lt {z : ℤ} {B : ℕ} (h : |(z : ℚ)| < (B : ℚ)) : z.natAbs < B := by
  have h1 : ((z.natAbs : ℕ) : ℚ) < (B : ℚ) := by
    rw [Int.cast_natAbs, Int.cast_abs]
    exact h
  exact_mod_cast h1

theorem rhu_natAbs_small {x : ℚ} (h : |x| ≤ 10 ^ 27) : (rhu x).natAbs < 10 ^ 28 := by
  apply natAbs_lt_of_abs_lt
  have hb := rhu_bound x
  push_cast
  calc |(rhu x : ℚ)| ≤ |x| + 1 := hb
  _ ≤ 10 ^ 27 + 1 := by linarith
  _ < 10 ^ 28 := by norm_num

/-- C3 counterexample: the weekly amount 0.0473076923076923076923076923
parses exactly, yet the stored monthly amount is 0.21 while the exact
round-half-up of weekly × 52 / 12 is 0.20 — the 28-significant-digit
context rounding of the intermediate product `weekly * 52` (to
2.460000000000000000000000000) changes the final half-up rounding, so the
claimed identity fails for this parsable weekly amount. -/
theorem C3_counterexample :
    parseDecimal (some ("0.0473076923076923076923076923"))
      = some (.finite ((473076923076923076923076923 : ℚ) / 10 ^ 28))
    ∧ liberapayMonthlyAmount (.finite ((473076923076923076923076923 : ℚ) / 10 ^ 28))
      = .ok (.finite (21 / 100))
    ∧ roundHalfUpTo2 ((473076923076923076923076923 : ℚ) / 10 ^ 28 * 52 / 12)
      = 20 / 100
    ∧ ((21 : ℚ) / 100 ≠ 20 / 100) := by
  refine ⟨?_, ?_, ?_, by norm_num⟩
  · have h := parseDecimal_renderPlain false [0]
        [0, 4, 7, 3, 0, 7, 6, 9, 2, 3, 0, 7, 6, 9, 2, 3, 0, 7, 6, 9, 2, 3, 0, 7, 6, 9, 2, 3]
        (by decide) (by decide) (Or.inl (by decide))
    rw [show String.mk (renderPlain false [0]
          [0, 4, 7, 3, 0, 7, 6, 9, 2, 3, 0, 7, 6, 9, 2, 3, 0, 7, 6, 9, 2, 3, 0, 7, 6, 9, 2, 3])
        = ("0.0473076923076923076923076923") from by decide] at h
    rw [h]
    norm_num [digitsNatVal]
  · have habs1 : |(473076923076923076923076923 : ℚ) / 10 ^ 28 * 52|
        = (473076923076923076923076923 : ℚ) / 10 ^ 28 * 52 := abs_of_pos (by positivity)
    have hr : rhe ((473076923076923076923076923 : ℚ) / 10 ^ 28 * 52 * pow10 (27 - 0))
        = 2460000000000000000000000000 := by
      rw [show ((473076923076923076923076923 : ℚ) / 10 ^ 28 * 52 * pow10 (27 - 0))
          = 12299999999999999999999999998 / 5 from by norm_num [pow10]]
      rw [show (2460000000000000000000000000 : ℤ)
          = 2459999999999999999999999999 + 1 from by norm_num]
      exact rhe_eq_high 2459999999999999999999999999 _ (by norm_num) (by norm_num)
    have hmul : ctxRound ((473076923076923076923076923 : ℚ) / 10 ^ 28 * 52) = 246 / 100 := by
      rw [ctxRound_eval _ 0 2460000000000000000000000000 (by norm_num)
        (by rw [habs1]; norm_num [pow10]) (by rw [habs1]; norm_num [pow10]) hr]
      norm_num [pow10]
    have hadj : adjExp ((246 : ℚ) / 100 / 12) = -1 := by
      apply adjExp_unique _ _ (by norm_num)
      · rw [show |(246 : ℚ) / 100 / 12| = (246 : ℚ) / 100 / 12 from abs_of_pos (by norm_num)]
        norm_num [pow10]
      · rw [show |(246 : ℚ) / 100 / 12| = (246 : ℚ) / 100 / 12 from abs_of_pos (by norm_num)]
        norm_num [pow10]
    have hdiv : ctxRound ((246 : ℚ) / 100 / 12) = (246 : ℚ) / 100 / 12 := by
      apply ctxRound_exact _ (2050000000000000000000000000 : ℤ)
      rw [hadj]
      norm_num [pow10]
    have hrhu : rhu ((246 : ℚ) / 100 / 12 * 100) = 21 := by
      rw [show ((246 : ℚ) / 100 / 12 * 100) = 41 / 2 from by norm_num]
      exact rhu_eval_nonneg 21 (41 / 2) (by norm_num) (by norm_num) (by norm_num)
    unfold liberapayMonthlyAmount
    rw [Dec_mul_finite, hmul, Dec_div_finite _ _ (by norm_num), hdiv,
      quantize2HU_finite _ (by rw [hrhu]; norm_num), hrhu]
    norm_num
  · unfold roundHalfUpTo2
    rw [show ((473076923076923076923076923 : ℚ) / 10 ^ 28 * 52 / 12 * 100)
        = 6149999999999999999999999999 / 300000000000000000000000000 from by norm_num]
    rw [rhu_eval_nonneg 20 (6149999999999999999999999999 / 300000000000000000000000000)
      (by norm_num) (by norm_num) (by norm_num)]
    norm_num

/-- For every weekly amount with at most two fractional digits and
magnitude at most 10^22 (written as `a / 100` for an integer `a` with
`|a| ≤ 10^24`), the Liberapay monthly amount computed by the code agrees
with the exact round-half-up of `weekly * 52 / 12` to two decimals: within
this range the 28-digit context never rounds at a point that disturbs the
final quantisation. -/
theorem liberapay_small_exact (a : ℤ) (ha : a.natAbs ≤ 10 ^ 24) :
    liberapayMonthlyAmount (.finite ((a : ℚ) / 100))
      = .ok (.finite (roundHalfUpTo2 ((a : ℚ) / 100 * 52 / 12))) := by
  unfold liberapayMonthlyAmount
  rw [Dec_mul_finite, Dec_div_finite _ _ (by norm_num)]
  by_cases ha0 : a = 0
  · subst ha0
    rw [show ((0 : ℤ) : ℚ) / 100 = 0 from by norm_num]
    rw [show (0 : ℚ) * 52 = 0 from by norm_num, ctxRound_zero,
      show (0 : ℚ) / 12 = 0 from by norm_num, ctxRound_zero]
    rw [quantize2HU_finite 0
      (by rw [show (0 : ℚ) * 100 = 0 from by norm_num, rhu_zero]; norm_num)]
    unfold roundHalfUpTo2
    norm_num [rhu_zero]
  have hane : (a : ℚ) ≠ 0 := Int.cast_ne_zero.mpr ha0
  have haQ : |(a : ℚ)| ≤ 10 ^ 24 := by
    rw [← Int.cast_abs]
    have h1 : |a| ≤ 10 ^ 24 := by
      rw [Int.abs_eq_natAbs]
      exact_mod_cast ha
    exact_mod_cast h1
  have hq1ne : (a : ℚ) / 100 * 52 ≠ 0 :=
    mul_ne_zero (div_ne_zero hane (by norm_num)) (by norm_num)
  have habs1 : |(a : ℚ) / 100 * 52| = |(a : ℚ)| / 100 * 52 := by
    rw [abs_mul, abs_div]
    norm_num
  have he1 : adjExp ((a : ℚ) / 100 * 52) ≤ 23 := by
    by_contra hc
    push_neg at hc
    have h1 := (adjExp_spec _ hq1ne).1
    have h2 : pow10 24 ≤ |(a : ℚ) / 100 * 52| :=
      le_trans (pow10_le_of_le (by omega)) h1
    rw [habs1] at h2
    rw [show pow10 24 = ((10 : ℚ)) ^ 24 from by norm_num [pow10]] at h2
    linarith
  have hmulExact : ctxRound ((a : ℚ) / 100 * 52) = (a : ℚ) / 100 * 52 := by
    apply ctxRound_exact _ (52 * a * 10 ^ (25 - adjExp ((a : ℚ) / 100 * 52)).toNat)
    have h27 : (27 : ℤ) - adjExp ((a : ℚ) / 100 * 52)
        = ((25 - adjExp ((a : ℚ) / 100 * 52)).toNat : ℤ) + 2 := by omega
    rw [h27, pow10_add, pow10_natCast, show pow10 2 = 100 from by norm_num [pow10]]
    push_cast
    ring
  rw [hmulExact]
  have hq2ne : (a : ℚ) / 100 * 52 / 12 ≠ 0 := div_ne_zero hq1ne (by norm_num)
  have habs2 : |(a : ℚ) / 100 * 52 / 12| = |(a : ℚ)| / 100 * 52 / 12 := by
    rw [abs_div, habs1]
    norm_num
  have he2 : adjExp ((a : ℚ) / 100 * 52 / 12) ≤ 22 := by
    by_contra hc
    push_neg at hc
    have h1 := (adjExp_spec _ hq2ne).1
    have h2 : pow10 23 ≤ |(a : ℚ) / 100 * 52 / 12| :=
      le_trans (pow10_le_of_le (by omega)) h1
    rw [habs2] at h2
    rw [show pow10 23 = ((10 : ℚ)) ^ 23 from by norm_num [pow10]] at h2
    linarith
  have hq2abs : |(a : ℚ) / 100 * 52 / 12 * 100| ≤ 13 / 3 * 10 ^ 24 := by
    rw [abs_mul, habs2, abs_of_nonneg (by norm_num : (0 : ℚ) ≤ 100)]
    linarith
  by_cases hd : (3 : ℤ) ∣ a
  · obtain ⟨b, hb⟩ := hd
    have hdivExact : ctxRound ((a : ℚ) / 100 * 52 / 12) = (a : ℚ) / 100 * 52 / 12 := by
      apply ctxRound_exact _
        (13 * b * 10 ^ (25 - adjExp ((a : ℚ) / 100 * 52 / 12)).toNat)
      have h27 : (27 : ℤ) - adjExp ((a : ℚ) / 100 * 52 / 12)
          = ((25 - adjExp ((a : ℚ) / 100 * 52 / 12)).toNat : ℤ) + 2 := by omega
      rw [h27, pow10_add, pow10_natCast, show pow10 2 = 100 from by norm_num [pow10], hb]
      push_cast
      ring
    rw [hdivExact]
    rw [quantize2HU_finite _ (rhu_natAbs_small (by
      calc |(a : ℚ) / 100 * 52 / 12 * 100| ≤ 13 / 3 * 10 ^ 24 := hq2abs
      _ ≤ 10 ^ 27 := by norm_num))]
    unfold roundHalfUpTo2
    rfl
  · have herr := ctxRound_err ((a : ℚ) / 100 * 52 / 12) hq2ne
    have hp5 : pow10 (adjExp ((a : ℚ) / 100 * 52 / 12) - 27) ≤ 1 / 100000 := by
      have h1 : pow10 (adjExp ((a : ℚ) / 100 * 52 / 12) - 27) ≤ pow10 (-5) :=
        pow10_le_of_le (by omega)
      have h2 : pow10 (-5) * pow10 5 = 1 := pow10_mul_eq_one (by norm_num)
      have h3 : pow10 5 = 100000 := by
        rw [show (5 : ℤ) = ((5 : ℕ) : ℤ) from rfl, pow10_natCast]
        norm_num
      rw [h3] at h2
      linarith
    set V := ctxRound ((a : ℚ) / 100 * 52 / 12) with hV
    have herr3 : |V - (a : ℚ) / 100 * 52 / 12| ≤ 1 / 200000 := by
      calc |V - (a : ℚ) / 100 * 52 / 12|
          ≤ 1 / 2 * pow10 (adjExp ((a : ℚ) / 100 * 52 / 12) - 27) := herr
      _ ≤ 1 / 200000 := by linarith
    have herr2 : |V * 100 - (a : ℚ) / 100 * 52 / 12 * 100| ≤ 1 / 2000 := by
      rw [show V * 100 - (a : ℚ) / 100 * 52 / 12 * 100
          = (V - (a : ℚ) / 100 * 52 / 12) * 100 from by ring, abs_mul,
        abs_of_nonneg (by norm_num : (0 : ℚ) ≤ 100)]
      linarith
    have hsideB : (rhu (V * 100)).natAbs < 10 ^ 28 := by
      apply rhu_natAbs_small
      have h1 := abs_sub_abs_le_abs_sub (V * 100) ((a : ℚ) / 100 * 52 / 12 * 100)
      calc |V * 100| ≤ 13 / 3 * 10 ^ 24 + 1 / 2000 := by linarith
      _ ≤ 10 ^ 27 := by norm_num
    obtain ⟨K, r, h13, hr12⟩ : ∃ K r : ℤ, 13 * a = 3 * K + r ∧ (r = 1 ∨ r = 2) :=
      ⟨13 * a / 3, 13 * a % 3, by omega, by omega⟩
    have hq2v2 : (a : ℚ) / 100 * 52 / 12 * 100 = (K : ℚ) + (r : ℚ) / 3 := by
      rw [show (a : ℚ) / 100 * 52 / 12 * 100 = ((13 * a : ℤ) : ℚ) / 3 from by
        push_cast; ring, h13]
      push_cast
      ring
    have hVb := abs_le.mp herr2
    rw [hq2v2] at hVb
    rcases hr12 with hr | hr
    · subst hr
      have hx : rhu ((a : ℚ) / 100 * 52 / 12 * 100) = K := by
        apply rhu_eq_of_close
        · rw [hq2v2]
          push_cast
          linarith
        · rw [hq2v2]
          push_cast
          linarith
      have hv2 : rhu (V * 100) = K := by
        apply rhu_eq_of_close
        · push_cast at hVb
          linarith [hVb.1, hVb.2]
        · push_cast at hVb
          linarith [hVb.1, hVb.2]
      rw [quantize2HU_finite _ hsideB]
      unfold roundHalfUpTo2
      rw [hv2, hx]
    · subst hr
      have hx : rhu ((a : ℚ) / 100 * 52 / 12 * 100) = K + 1 := by
        apply rhu_eq_of_close
        · rw [hq2v2]
          push_cast
          linarith
        · rw [hq2v2]
          push_cast
          linarith
      have hv2 : rhu (V * 100) = K + 1 := by
        apply rhu_eq_of_close
        · push_cast at hVb ⊢
          linarith [hVb.1, hVb.2]
        · push_cast at hVb ⊢
          linarith [hVb.1, hVb.2]
      rw [quantize2HU_finite _ hsideB]
      unfold roundHalfUpTo2
      rw [hv2, hx]

/-- C3 amended: the claimed identity `stored monthly amount =
round_half_up(weekly × 52 / 12, 2 decimals)` does hold for every weekly
amount of the form `a/100` with `|a| ≤ 10^24` — in particular for every
realistic currency amount, and for the claim's own example weekly = 5.00,
whose stored monthly amount is 21.67 — but not for every parsable weekly
amount (see the counterexample with 28 significant digits). -/
theorem C3_amended :
    (∀ a : ℤ, a.natAbs ≤ 10 ^ 24 →
        liberapayMonthlyAmount (.finite ((a : ℚ) / 100))
          = .ok (.finite (roundHalfUpTo2 ((a : ℚ) / 100 * 52 / 12))))
    ∧ liberapayMonthlyAmount (.finite 5) = .ok (.finite (2167 / 100))
    ∧ roundHalfUpTo2 ((5 : ℚ) * 52 / 12) = 2167 / 100 := by
  have h5 : roundHalfUpTo2 ((5 : ℚ) * 52 / 12) = 2167 / 100 := by
    unfold roundHalfUpTo2
    rw [show (5 : ℚ) * 52 / 12 * 100 = 6500 / 3 from by norm_num]
    rw [rhu_eval_nonneg 2167 (6500 / 3) (by norm_num) (by norm_num) (by norm_num)]
    norm_num
  refine ⟨fun a ha => liberapay_small_exact a ha, ?_, h5⟩
  have h := liberapay_small_exact 500 (by norm_num)
  rw [show ((500 : ℤ) : ℚ) / 100 = 5 from by norm_num] at h
  rw [h5] at h
  exact h

/-- Witness for C3 amended: the bound hypothesis is satisfied at a = 500
(weekly = 5.00) and the general exactness conclusion holds there. -/
theorem C3_amended_witness :
    (500 : ℤ).natAbs ≤ 10 ^ 24
    ∧ liberapayMonthlyAmount (.finite (((500 : ℤ) : ℚ) / 100))
        = .ok (.finite (roundHalfUpTo2 (((500 : ℤ) : ℚ) / 100 * 52 / 12))) :=
  ⟨by norm_num, C3_amended.1 500 (by norm_num)⟩

/-! ## C6 — deduplication keeps the last-seen record per identity -/

theorem upsert_cons (k0 : String × String) (v0 s : Sponsor)
    (rest : List ((String × String) × Sponsor)) :
    upsert ((k0, v0) :: rest) s
      = if k0 = sponsorKey s then (k0, s) :: rest else (k0, v0) :: upsert rest s := by
  simp only [upsert]

theorem find?_key_cons (k : String × String) (a : (String × String) × Sponsor)
    (l : List ((String × String) × Sponsor)) :
    List.find? (fun p => decide (p.1 = k)) (a :: l)
      = if a.1 = k then some a else List.find? (fun p => decide (p.1 = k)) l := by
  by_cases h : a.1 = k
  · simp [List.find?_cons_of_pos, h]
  · simp [List.find?_cons_of_neg, h]

theorem find?_sponsor_cons (k : String × String) (x : Sponsor) (l : List Sponsor) :
    List.find? (fun s => decide (sponsorKey s = k)) (x :: l)
      = if sponsorKey x = k then some x
        else List.find? (fun s => decide (sponsorKey s = k)) l := by
  by_cases h : sponsorKey x = k
  · simp [List.find?_cons_of_pos, h]
  · simp [List.find?_cons_of_neg, h]

theorem lookupKey_cons (a : (String × String) × Sponsor)
    (l : List ((String × String) × Sponsor)) (k : String × String) :
    lookupKey (a :: l) k = if a.1 = k then some a.2 else lookupKey l k := by
  unfold lookupKey
  rw [find?_key_cons]
  by_cases h : a.1 = k
  · rw [if_pos h, if_pos h]
    rfl
  · rw [if_neg h, if_neg h]

theorem lastWithKey_cons (x : Sponsor) (xs : List Sponsor) (k : String × String) :
    lastWithKey (x :: xs) k
      = (lastWithKey xs k).or (if sponsorKey x = k then some x else none) := by
  unfold lastWithKey
  rw [List.reverse_cons, List.find?_append, find?_sponsor_cons]
  rfl

theorem lookupKey_upsert (m : List ((String × String) × Sponsor)) (s : Sponsor)
    (k : String × String) :
    lookupKey (upsert m s) k = if k = sponsorKey s then some s else lookupKey m k := by
  induction m with
  | nil =>
      show lookupKey [(sponsorKey s, s)] k = _
      rw [lookupKey_cons]
      by_cases hk : k = sponsorKey s
      · rw [if_pos hk.symm, if_pos hk]
      · rw [if_neg (fun h => hk h.symm), if_neg hk]
  | cons a rest ih =>
      obtain ⟨k0, v0⟩ := a
      by_cases h0 : k0 = sponsorKey s
      · rw [upsert_cons, if_pos h0]
        simp only [lookupKey_cons]
        by_cases hk : k0 = k
        · rw [if_pos hk, if_pos (hk.symm.trans h0)]
        · rw [if_neg hk, if_neg (fun h => hk (h0.trans h.symm)), if_neg hk]
      · rw [upsert_cons, if_neg h0]
        simp only [lookupKey_cons, ih]
        split_ifs with h1 h2 <;> try rfl
        exact absurd (h1.trans h2) h0

theorem lookupKey_foldl_upsert (xs : List Sponsor) :
    ∀ (m : List ((String × String) × Sponsor)) (k : String × String),
      lookupKey (List.foldl upsert m xs) k = (lastWithKey xs k).or (lookupKey m k) := by
  induction xs with
  | nil =>
      intro m k
      rfl
  | cons x xs ih =>
      intro m k
      rw [List.foldl_cons, ih (upsert m x) k, lookupKey_upsert, lastWithKey_cons]
      cases lastWithKey xs k with
      | some s => rfl
      | none =>
          show (if k = sponsorKey x then some x else lookupKey m k)
            = Option.or (if sponsorKey x = k then some x else none) (lookupKey m k)
          by_cases hk : sponsorKey x = k
          · rw [if_pos hk.symm, if_pos hk]
            rfl
          · rw [if_neg (fun h => hk h.symm), if_neg hk]
            rfl

theorem lookupKey_dedupeMap (xs : List Sponsor) (k : String × String) :
    lookupKey (dedupeMap xs) k = lastWithKey xs k := by
  unfold dedupeMap
  rw [lookupKey_foldl_upsert]
  cases lastWithKey xs k <;> rfl

theorem upsert_wf : ∀ (m : List ((String × String) × Sponsor)) (s : Sponsor),
    (∀ p ∈ m, p.1 = sponsorKey p.2) → ∀ p ∈ upsert m s, p.1 = sponsorKey p.2 := by
  intro m
  induction m with
  | nil =>
      intro s _ p hp
      rcases List.mem_singleton.mp hp with rfl
      rfl
  | cons a rest ih =>
      intro s h p hp
      obtain ⟨k0, v0⟩ := a
      have hrest : ∀ q ∈ rest, q.1 = sponsorKey q.2 :=
        fun q hq => h q (List.mem_cons_of_mem _ hq)
      by_cases h0 : k0 = sponsorKey s
      · rw [upsert_cons, if_pos h0] at hp
        rcases List.mem_cons.mp hp with rfl | hq
        · exact h0
        · exact hrest _ hq
      · rw [upsert_cons, if_neg h0] at hp
        rcases List.mem_cons.mp hp with rfl | hq
        · exact h (k0, v0) (List.mem_cons_self _ _)
        · exact ih s hrest _ hq

theorem mem_keys_upsert : ∀ (m : List ((String × String) × Sponsor)) (s : Sponsor)
    (j : String × String),
    j ∈ (upsert m s).map (fun p => p.1)
      ↔ j ∈ m.map (fun p => p.1) ∨ j = sponsorKey s := by
  intro m
  induction m with
  | nil =>
      intro s j
      show j ∈ [(sponsorKey s, s)].map (fun p => p.1) ↔ _
      simp
  | cons a rest ih =>
      intro s j
      obtain ⟨k0, v0⟩ := a
      by_cases h0 : k0 = sponsorKey s
      · rw [upsert_cons, if_pos h0]
        simp only [List.map_cons, List.mem_cons]
        constructor
        · rintro (rfl | hj)
          · exact Or.inl (Or.inl rfl)
          · exact Or.inl (Or.inr hj)
        · rintro ((rfl | hj) | rfl)
          · exact Or.inl rfl
          · exact Or.inr hj
          · exact Or.inl h0.symm
      · rw [upsert_cons, if_neg h0]
        simp only [List.map_cons, List.mem_cons]
        rw [ih s j]
        tauto

theorem nodup_keys_upsert : ∀ (m : List ((String × String) × Sponsor)) (s : Sponsor),
    (m.map (fun p => p.1)).Nodup → ((upsert m s).map (fun p => p.1)).Nodup := by
  intro m
  induction m with
  | nil =>
      intro s _
      show ([(sponsorKey s, s)].map (fun p => p.1)).Nodup
      simp
  | cons a rest ih =>
      intro s h
      obtain ⟨k0, v0⟩ := a
      simp only [List.map_cons, List.nodup_cons] at h
      obtain ⟨hk0, hrest⟩ := h
      by_cases h0 : k0 = sponsorKey s
      · rw [upsert_cons, if_pos h0]
        simp only [List.map_cons, List.nodup_cons]
        exact ⟨hk0, hrest⟩
      · rw [upsert_cons, if_neg h0]
        simp only [List.map_cons, List.nodup_cons]
        refine ⟨?_, ih s hrest⟩
        intro hmem
        rcases (mem_keys_upsert rest s k0).mp hmem with h1 | h1
        · exact hk0 h1
        · exact h0 h1

theorem foldl_upsert_wf (xs : List Sponsor) :
    ∀ m, (∀ p ∈ m, p.1 = sponsorKey p.2) →
      ∀ p ∈ List.foldl upsert m xs, p.1 = sponsorKey p.2 := by
  induction xs with
  | nil => intro m h; exact h
  | cons x xs ih => intro m h; exact ih _ (upsert_wf m x h)

theorem foldl_upsert_nodup (xs : List Sponsor) :
    ∀ m, (m.map (fun p => p.1)).Nodup →
      ((List.foldl upsert m xs).map (fun p => p.1)).Nodup := by
  induction xs with
  | nil => intro m h; exact h
  | cons x xs ih => intro m h; exact ih _ (nodup_keys_upsert m x h)

theorem dedupeMap_wf (xs : List Sponsor) :
    ∀ p ∈ dedupeMap xs, p.1 = sponsorKey p.2 :=
  foldl_upsert_wf xs [] (by intro p hp; cases hp)

theorem dedupeMap_nodup (xs : List Sponsor) :
    ((dedupeMap xs).map (fun p => p.1)).Nodup :=
  foldl_upsert_nodup xs [] (by simp)

theorem lookupKey_eq_of_mem : ∀ (m : List ((String × String) × Sponsor)),
    (m.map (fun p => p.1)).Nodup → ∀ (k : String × String) (v : Sponsor),
      (k, v) ∈ m → lookupKey m k = some v := by
  intro m
  induction m with
  | nil => intro _ k v hm; cases hm
  | cons a rest ih =>
      intro hnd k v hm
      obtain ⟨k0, v0⟩ := a
      simp only [List.map_cons, List.nodup_cons] at hnd
      rw [lookupKey_cons]
      rcases List.mem_cons.mp hm with heq | hmem
      · rw [Prod.mk.injEq] at heq
        obtain ⟨rfl, rfl⟩ := heq
        rw [if_pos rfl]
      · have hk : ¬ (k0, v0).1 = k := by
          intro h
          apply hnd.1
          show k0 ∈ rest.map (fun p => p.1)
          rw [show k0 = k from h]
          exact List.mem_map.mpr ⟨(k, v), hmem, rfl⟩
        rw [if_neg hk]
        exact ih hnd.2 k v hmem

theorem mapValues_keys_distinct {m : List ((String × String) × Sponsor)}
    (hwf : ∀ p ∈ m, p.1 = sponsorKey p.2)
    (hnd : (m.map (fun p => p.1)).Nodup) :
    (mapValues m).Pairwise (fun a b => sponsorKey a ≠ sponsorKey b) := by
  have hmap : m.map (fun p => p.1) = (mapValues m).map sponsorKey := by
    unfold mapValues
    rw [List.map_map]
    exact List.map_congr_left (fun p hp => hwf p hp)
  rw [hmap] at hnd
  exact List.pairwise_map.mp hnd

theorem sortAndDedupe_keys_distinct (xs : List Sponsor) :
    (sortAndDedupe xs).Pairwise (fun a b => sponsorKey a ≠ sponsorKey b) := by
  have hperm : (sortAndDedupe xs).Perm (mapValues (dedupeMap xs)) :=
    List.perm_insertionSort sponsorLe (mapValues (dedupeMap xs))
  rw [hperm.pairwise_iff (fun hab he => hab he.symm)]
  exact mapValues_keys_distinct (dedupeMap_wf xs) (dedupeMap_nodup xs)

/-- C6: `sort_and_dedupe` keeps exactly the last-seen record per identity
`(platform, key)`: the output has pairwise-distinct identities (any two
input records sharing an identity collapse to one); every output record is
the last input record carrying its identity; every input identity
survives; and on the merged list — Liberapay records prepended before
GitHub records — the record retained for the identity of any GitHub-derived
record is determined by the GitHub segment alone, so a GitHub record
overwrites a colliding earlier record. -/
theorem C6_dedupe_last_wins :
    (∀ xs : List Sponsor,
        (sortAndDedupe xs).Pairwise (fun a b => sponsorKey a ≠ sponsorKey b))
    ∧ (∀ xs : List Sponsor, ∀ s ∈ sortAndDedupe xs,
        lastWithKey xs (sponsorKey s) = some s)
    ∧ (∀ xs : List Sponsor, ∀ s ∈ xs,
        ∃ t ∈ sortAndDedupe xs, sponsorKey t = sponsorKey s)
    ∧ (∀ lp gh : List Sponsor, ∀ g ∈ gh,
        lastWithKey (mergeSponsors lp gh) (sponsorKey g)
          = lastWithKey gh (sponsorKey g)) := by
  refine ⟨sortAndDedupe_keys_distinct, ?_, ?_, ?_⟩
  · intro xs s hs
    have hs' : s ∈ mapValues (dedupeMap xs) :=
      ((List.perm_insertionSort sponsorLe (mapValues (dedupeMap xs))).mem_iff).mp hs
    obtain ⟨p, hpm, hp2⟩ := List.mem_map.mp hs'
    obtain ⟨k0, v0⟩ := p
    have hv0 : v0 = s := hp2
    subst hv0
    have hk0 : k0 = sponsorKey v0 := dedupeMap_wf xs (k0, v0) hpm
    subst hk0
    rw [← lookupKey_dedupeMap]
    exact lookupKey_eq_of_mem (dedupeMap xs) (dedupeMap_nodup xs) (sponsorKey v0) v0 hpm
  · intro xs s hs
    cases hfind : xs.reverse.find? (fun t => decide (sponsorKey t = sponsorKey s)) with
    | none =>
        have := List.find?_eq_none.mp hfind s (List.mem_reverse.mpr hs)
        simp at this
    | some t =>
        have hpt : sponsorKey t = sponsorKey s := by
          have := List.find?_some hfind
          simpa using this
        have hlook : lookupKey (dedupeMap xs) (sponsorKey s) = some t := by
          rw [lookupKey_dedupeMap]
          exact hfind
        unfold lookupKey at hlook
        cases hfp : (dedupeMap xs).find? (fun p => decide (p.1 = sponsorKey s)) with
        | none => rw [hfp] at hlook; cases hlook
        | some p =>
            rw [hfp] at hlook
            have hp2 : p.2 = t := by simpa using hlook
            have hpm : p ∈ dedupeMap xs := List.mem_of_find?_eq_some hfp
            have htm : t ∈ mapValues (dedupeMap xs) := by
              rw [← hp2]
              exact List.mem_map.mpr ⟨p, hpm, rfl⟩
            exact ⟨t,
              ((List.perm_insertionSort sponsorLe (mapValues (dedupeMap xs))).mem_iff).mpr htm,
              hpt⟩
  · intro lp gh g hg
    unfold mergeSponsors lastWithKey
    rw [List.reverse_append, List.find?_append]
    cases hf : gh.reverse.find? (fun t => decide (sponsorKey t = sponsorKey g)) with
    | some t => rfl
    | none =>
        have := List.find?_eq_none.mp hf g (List.mem_reverse.mpr hg)
        simp at this

/-- Witness for C6 on a concrete two-record collision: the later record
`dupB` is the one retained, it is the last record with its identity, the
identity of the earlier record `dupA` survives, and the merged-list
retention for a GitHub-segment record ignores the prepended segment. -/
theorem C6_dedupe_last_wins_witness :
    (dupB ∈ sortAndDedupe [dupA, dupB])
    ∧ lastWithKey [dupA, dupB] (sponsorKey dupB) = some dupB
    ∧ (dupA ∈ [dupA, dupB])
    ∧ (∃ t ∈ sortAndDedupe [dupA, dupB], sponsorKey t = sponsorKey dupA)
    ∧ (dupB ∈ [dupB])
    ∧ lastWithKey (mergeSponsors [dupA] [dupB]) (sponsorKey dupB)
        = lastWithKey [dupB] (sponsorKey dupB) :=
  ⟨by decide, C6_dedupe_last_wins.2.1 [dupA, dupB] dupB (by decide),
   by decide, C6_dedupe_last_wins.2.2.1 [dupA, dupB] dupA (by decide),
   by decide, C6_dedupe_last_wins.2.2.2 [dupA] [dupB] dupB (by decide)⟩

/-! ## C7 — the sort key is a strict total order on the deduplicated output -/

theorem listLtB_cons (a b : ℕ) (xs ys : List ℕ) :
    listLtB (a :: xs) (b :: ys)
      = if a < b then true else if b < a then false else listLtB xs ys := rfl

theorem listLtB_irrefl : ∀ l : List ℕ, listLtB l l = false := by
  intro l
  induction l with
  | nil => rfl
  | cons a l ih =>
      rw [listLtB_cons, if_neg (lt_irrefl a), if_neg (lt_irrefl a)]
      exact ih

theorem listLtB_asymm : ∀ {x y : List ℕ}, listLtB x y = true → listLtB y x = true → False := by
  intro x
  induction x with
  | nil =>
      intro y hxy hyx
      cases y with
      | nil => simp [listLtB] at hxy
      | cons b ys => simp [listLtB] at hyx
  | cons a xs ih =>
      intro y hxy hyx
      cases y with
      | nil => simp [listLtB] at hxy
      | cons b ys =>
          rw [listLtB_cons] at hxy hyx
          by_cases h1 : a < b
          · rw [if_neg (by omega), if_pos h1] at hyx
            simp at hyx
          · by_cases h2 : b < a
            · rw [if_neg h1, if_pos h2] at hxy
              simp at hxy
            · rw [if_neg h1, if_neg h2] at hxy
              rw [if_neg h2, if_neg h1] at hyx
              exact ih hxy hyx

theorem listLtB_trans : ∀ {x y z : List ℕ},
    listLtB x y = true → listLtB y z = true → listLtB x z = true := by
  intro x
  induction x with
  | nil =>
      intro y z hxy hyz
      cases y with
      | nil => simp [listLtB] at hxy
      | cons b ys =>
          cases z with
          | nil => simp [listLtB] at hyz
          | cons c zs => rfl
  | cons a xs ih =>
      intro y z hxy hyz
      cases y with
      | nil => simp [listLtB] at hxy
      | cons b ys =>
          cases z with
          | nil => simp [listLtB] at hyz
          | cons c zs =>
              rw [listLtB_cons] at hxy hyz
              rw [listLtB_cons]
              by_cases h1 : a < b
              · by_cases h2 : b < c
                · rw [if_pos (by omega)]
                · by_cases h3 : c < b
                  · rw [if_neg h2, if_pos h3] at hyz
                    simp at hyz
                  · rw [if_pos (by omega)]
              · by_cases h2 : b < a
                · rw [if_neg h1, if_pos h2] at hxy
                  simp at hxy
                · rw [if_neg h1, if_neg h2] at hxy
                  by_cases h3 : b < c
                  · rw [if_pos (by omega)]
                  · by_cases h4 : c < b
                    · rw [if_neg h3, if_pos h4] at hyz
                      simp at hyz
                    · rw [if_neg h3, if_neg h4] at hyz
                      rw [if_neg (by omega), if_neg (by omega)]
                      exact ih hxy hyz

theorem listLtB_trichotomy : ∀ x y : List ℕ,
    listLtB x y = true ∨ x = y ∨ listLtB y x = true := by
  intro x
  induction x with
  | nil =>
      intro y
      cases y with
      | nil => exact Or.inr (Or.inl rfl)
      | cons b ys => exact Or.inl rfl
  | cons a xs ih =>
      intro y
      cases y with
      | nil => exact Or.inr (Or.inr rfl)
      | cons b ys =>
          rcases Nat.lt_trichotomy a b with h | h | h
          · left
            rw [listLtB_cons, if_pos h]
          · subst h
            rcases ih ys with h2 | h2 | h2
            · left
              rw [listLtB_cons, if_neg (lt_irrefl a), if_neg (lt_irrefl a)]
              exact h2
            · right
              left
              rw [h2]
            · right
              right
              rw [listLtB_cons, if_neg (lt_irrefl a), if_neg (lt_irrefl a)]
              exact h2
          · right
            right
            rw [listLtB_cons, if_pos h]

theorem sortLtB_def (x1 y1 : ℤ) (x2 x3 x4 y2 y3 y4 : List ℕ) :
    sortLtB (x1, x2, x3, x4) (y1, y2, y3, y4)
      = if x1 < y1 then true
        else if y1 < x1 then false
        else if listLtB x2 y2 then true
        else if listLtB y2 x2 then false
        else if listLtB x3 y3 then true
        else if listLtB y3 x3 then false
        else listLtB x4 y4 := rfl

theorem sortLtB_true_iff (x1 y1 : ℤ) (x2 x3 x4 y2 y3 y4 : List ℕ) :
    sortLtB (x1, x2, x3, x4) (y1, y2, y3, y4) = true ↔
      x1 < y1
      ∨ (x1 = y1 ∧ (listLtB x2 y2 = true
      ∨ (x2 = y2 ∧ (listLtB x3 y3 = true
      ∨ (x3 = y3 ∧ listLtB x4 y4 = true))))) := by
  rw [sortLtB_def]
  constructor
  · intro h
    by_cases h1 : x1 < y1
    · exact Or.inl h1
    · rw [if_neg h1] at h
      by_cases h2 : y1 < x1
      · rw [if_pos h2] at h
        simp at h
      · rw [if_neg h2] at h
        refine Or.inr ⟨by omega, ?_⟩
        by_cases h3 : listLtB x2 y2 = true
        · exact Or.inl h3
        · rw [if_neg h3] at h
          by_cases h4 : listLtB y2 x2 = true
          · rw [if_pos h4] at h
            simp at h
          · rw [if_neg h4] at h
            have he2 : x2 = y2 := by
              rcases listLtB_trichotomy x2 y2 with hc | hc | hc
              · exact absurd hc h3
              · exact hc
              · exact absurd hc h4
            refine Or.inr ⟨he2, ?_⟩
            by_cases h5 : listLtB x3 y3 = true
            · exact Or.inl h5
            · rw [if_neg h5] at h
              by_cases h6 : listLtB y3 x3 = true
              · rw [if_pos h6] at h
                simp at h
              · rw [if_neg h6] at h
                have he3 : x3 = y3 := by
                  rcases listLtB_trichotomy x3 y3 with hc | hc | hc
                  · exact absurd hc h5
                  · exact hc
                  · exact absurd hc h6
                exact Or.inr ⟨he3, h⟩
  · intro h
    rcases h with h1 | ⟨he1, h⟩
    · rw [if_pos h1]
    · subst he1
      rw [if_neg (lt_irrefl x1), if_neg (lt_irrefl x1)]
      rcases h with h3 | ⟨he2, h⟩
      · rw [if_pos h3]
      · subst he2
        rw [if_neg (by simp [listLtB_irrefl]), if_neg (by simp [listLtB_irrefl])]
        rcases h with h5 | ⟨he3, h7⟩
        · rw [if_pos h5]
        · subst he3
          rw [if_neg (by simp [listLtB_irrefl]), if_neg (by simp [listLtB_irrefl])]
          exact h7

theorem sortLtB_irrefl (x : ℤ × List ℕ × List ℕ × List ℕ) : sortLtB x x = false := by
  obtain ⟨x1, x2, x3, x4⟩ := x
  rw [sortLtB_def, if_neg (lt_irrefl x1), if_neg (lt_irrefl x1),
    if_neg (by simp [listLtB_irrefl]), if_neg (by simp [listLtB_irrefl]),
    if_neg (by simp [listLtB_irrefl]), if_neg (by simp [listLtB_irrefl]),
    listLtB_irrefl]

theorem sortLtB_asymm : ∀ {x y : ℤ × List ℕ × List ℕ × List ℕ},
    sortLtB x y = true → sortLtB y x = true → False := by
  intro x y hxy hyx
  obtain ⟨x1, x2, x3, x4⟩ := x
  obtain ⟨y1, y2, y3, y4⟩ := y
  rw [sortLtB_true_iff] at hxy hyx
  rcases hxy with h | ⟨e1, hxy⟩
  · rcases hyx with h' | ⟨e1', _⟩
    · omega
    · omega
  · subst e1
    rcases hyx with h' | ⟨-, hyx⟩
    · omega
    · rcases hxy with h | ⟨e2, hxy⟩
      · rcases hyx with h' | ⟨e2', _⟩
        · exact listLtB_asymm h h'
        · rw [e2'] at h
          simp [listLtB_irrefl] at h
      · subst e2
        rcases hyx with h' | ⟨-, hyx⟩
        · simp [listLtB_irrefl] at h'
        · rcases hxy with h | ⟨e3, hxy⟩
          · rcases hyx with h' | ⟨e3', _⟩
            · exact listLtB_asymm h h'
            · rw [e3'] at h
              simp [listLtB_irrefl] at h
          · subst e3
            rcases hyx with h' | ⟨-, hyx⟩
            · simp [listLtB_irrefl] at h'
            · exact listLtB_asymm hxy hyx

theorem sortLtB_trans : ∀ {x y z : ℤ × List ℕ × List ℕ × List ℕ},
    sortLtB x y = true → sortLtB y z = true → sortLtB x z = true := by
  intro x y z hxy hyz
  obtain ⟨x1, x2, x3, x4⟩ := x
  obtain ⟨y1, y2, y3, y4⟩ := y
  obtain ⟨z1, z2, z3, z4⟩ := z
  rw [sortLtB_true_iff] at hxy hyz ⊢
  rcases hxy with h | ⟨e1, hxy⟩
  · rcases hyz with h' | ⟨e1', _⟩
    · exact Or.inl (by omega)
    · exact Or.inl (by omega)
  · subst e1
    rcases hyz with h' | ⟨e1', hyz⟩
    · exact Or.inl h'
    · subst e1'
      refine Or.inr ⟨rfl, ?_⟩
      rcases hxy with h | ⟨e2, hxy⟩
      · rcases hyz with h' | ⟨e2', _⟩
        · exact Or.inl (listLtB_trans h h')
        · exact Or.inl (e2' ▸ h)
      · subst e2
        rcases hyz with h' | ⟨e2', hyz⟩
        · exact Or.inl h'
        · subst e2'
          refine Or.inr ⟨rfl, ?_⟩
          rcases hxy with h | ⟨e3, hxy⟩
          · rcases hyz with h' | ⟨e3', _⟩
            · exact Or.inl (listLtB_trans h h')
            · exact Or.inl (e3' ▸ h)
          · subst e3
            rcases hyz with h' | ⟨e3', hyz⟩
            · exact Or.inl h'
            · subst e3'
              exact Or.inr ⟨rfl, listLtB_trans hxy hyz⟩

theorem sortLtB_trichotomy (x y : ℤ × List ℕ × List ℕ × List ℕ) :
    sortLtB x y = true ∨ x = y ∨ sortLtB y x = true := by
  obtain ⟨x1, x2, x3, x4⟩ := x
  obtain ⟨y1, y2, y3, y4⟩ := y
  rcases Int.lt_trichotomy x1 y1 with h1 | h1 | h1
  · exact Or.inl ((sortLtB_true_iff ..).mpr (Or.inl h1))
  · subst h1
    rcases listLtB_trichotomy x2 y2 with h2 | h2 | h2
    · exact Or.inl ((sortLtB_true_iff ..).mpr (Or.inr ⟨rfl, Or.inl h2⟩))
    · subst h2
      rcases listLtB_trichotomy x3 y3 with h3 | h3 | h3
      · exact Or.inl ((sortLtB_true_iff ..).mpr (Or.inr ⟨rfl, Or.inr ⟨rfl, Or.inl h3⟩⟩))
      · subst h3
        rcases listLtB_trichotomy x4 y4 with h4 | h4 | h4
        · exact Or.inl
            ((sortLtB_true_iff ..).mpr (Or.inr ⟨rfl, Or.inr ⟨rfl, Or.inr ⟨rfl, h4⟩⟩⟩))
        · subst h4
          exact Or.inr (Or.inl rfl)
        · exact Or.inr (Or.inr
            ((sortLtB_true_iff ..).mpr (Or.inr ⟨rfl, Or.inr ⟨rfl, Or.inr ⟨rfl, h4⟩⟩⟩)))
      · exact Or.inr (Or.inr
          ((sortLtB_true_iff ..).mpr (Or.inr ⟨rfl, Or.inr ⟨rfl, Or.inl h3⟩⟩)))
    · exact Or.inr (Or.inr ((sortLtB_true_iff ..).mpr (Or.inr ⟨rfl, Or.inl h2⟩)))
  · exact Or.inr (Or.inr ((sortLtB_true_iff ..).mpr (Or.inl h1)))

theorem sponsorLe_total : ∀ a b : Sponsor, sponsorLe a b ∨ sponsorLe b a := by
  intro a b
  unfold sponsorLe sortLeB
  rcases sortLtB_trichotomy (sortKey a) (sortKey b) with h | h | h
  · left
    have hf : sortLtB (sortKey b) (sortKey a) = false := by
      cases hc : sortLtB (sortKey b) (sortKey a) with
      | false => rfl
      | true => exact (sortLtB_asymm h hc).elim
    rw [hf]
    rfl
  · left
    rw [h, sortLtB_irrefl]
    rfl
  · right
    have hf : sortLtB (sortKey a) (sortKey b) = false := by
      cases hc : sortLtB (sortKey a) (sortKey b) with
      | false => rfl
      | true => exact (sortLtB_asymm h hc).elim
    rw [hf]
    rfl

theorem sponsorLe_trans : ∀ a b c : Sponsor,
    sponsorLe a b → sponsorLe b c → sponsorLe a c := by
  intro a b c hab hbc
  unfold sponsorLe sortLeB at hab hbc ⊢
  have hab' : sortLtB (sortKey b) (sortKey a) = false := by
    cases hc : sortLtB (sortKey b) (sortKey a) with
    | false => rfl
    | true => rw [hc] at hab; simp at hab
  have hbc' : sortLtB (sortKey c) (sortKey b) = false := by
    cases hc : sortLtB (sortKey c) (sortKey b) with
    | false => rfl
    | true => rw [hc] at hbc; simp at hbc
  cases hca : sortLtB (sortKey c) (sortKey a) with
  | false => rfl
  | true =>
      exfalso
      rcases sortLtB_trichotomy (sortKey a) (sortKey b) with h | h | h
      · have h2 := sortLtB_trans hca h
        rw [h2] at hbc'
        simp at hbc'
      · rw [h] at hca
        rw [hca] at hbc'
        simp at hbc'
      · rw [h] at hab'
        simp at hab'

theorem cp_inj {s t : String} (h : cp s = cp t) : s = t := by
  have hinj : Function.Injective Char.toNat := by
    intro a b hab
    rw [← Char.ofNat_toNat a, ← Char.ofNat_toNat b, hab]
  have hd : s.data = t.data := (List.map_injective_iff.mpr hinj) h
  cases s
  cases t
  exact congrArg String.mk hd

theorem sponsorKey_eq_of_sortKey_eq {a b : Sponsor} (h : sortKey a = sortKey b) :
    sponsorKey a = sponsorKey b := by
  unfold sortKey at h
  simp only [Prod.mk.injEq] at h
  unfold sponsorKey
  rw [cp_inj h.2.2.1, cp_inj h.2.2.2]

/-- C7: for every input list, the output of `sort_and_dedupe` is strictly
increasing in the sort key `(started_at, name.casefold(), platform, key)`
under the lexicographic strict order: the order is a strict total order on
the output, any tie on the first two components being broken by `platform`
then `key`, which are pairwise distinct after deduplication, so no ties
remain. -/
theorem C7_sort_strict_total (xs : List Sponsor) :
    (sortAndDedupe xs).Pairwise (fun a b => sortLtB (sortKey a) (sortKey b) = true) := by
  have hle : (sortAndDedupe xs).Pairwise sponsorLe := by
    haveI ht : IsTotal Sponsor sponsorLe := ⟨sponsorLe_total⟩
    haveI htr : IsTrans Sponsor sponsorLe := ⟨fun a b c => sponsorLe_trans a b c⟩
    exact List.sorted_insertionSort sponsorLe (mapValues (dedupeMap xs))
  have hne := sortAndDedupe_keys_distinct xs
  refine (hle.and hne).imp ?_
  intro a b hab
  obtain ⟨h1, h2⟩ := hab
  rcases sortLtB_trichotomy (sortKey a) (sortKey b) with h | h | h
  · exact h
  · exact absurd (sponsorKey_eq_of_sortKey_eq h) h2
  · exfalso
    unfold sponsorLe sortLeB at h1
    rw [h] at h1
    simp at h1

end UpdateSponsors
